import Mathlib

/-!
# logx: a rotating, buffered file logger

A shallow embedding of `src/log.go`.

Conventions of the embedding

* a Go `string` is a Lean `String`, a Go `[]byte` is a `List Char`; one `Char`
  stands for one byte;
* `int`, `int64` and `logLevel` values that may be negative are `Int`, counters
  and clock fields are `Nat`; no value of the program gets near `2^63`, so
  machine overflow is not modelled;
* the filesystem is a finite-or-infinite map from path to regular file; every
  call of the operating system succeeds, except that `Stat` and `Rename` fail
  on an absent path;
* `time.Now()` is an argument (`Clock`, the result of `Date()` and `Clock()`);
  all readings taken inside one call of `Write` are the same value;
* the mutex is not modelled: the operations are run one at a time;
* `go lo.delete()` starts a goroutine; the embedding counts the sweeps started
  (`World.sweeps`) and has the sweep itself (`LoggerObj.delete`) as a separate
  operation, on the directory seen as a tree of entries with modification
  instants; `AddDate(0, 0, -n)` is `n` days of 24 hours;
* mail delivery is outside the program: a mail requested is recorded.
-/

namespace Logx

/-! ## Constants (log.go 28-41) -/

abbrev logLevel := Int

def DEBUG : logLevel := 0
def INFO : logLevel := 1
def WARN : logLevel := 2
def ERROR : logLevel := 3
def FATAL : logLevel := 4

def maxStorageDay : Int := 60
def maxSize : Int := 1024 * 1024 * 256
def bufferSize : Nat := 1024 * 256
def digits : String := "0123456789"
/-- Thirty seconds, in nanoseconds. -/
def flushInterval : Int := 30 * 1000000000
def logShort : String := "[DEBUG],[INFO],[WARN],[ERROR],[FATAL]"
def colorShort : String := "37,34,33,31,35"

/-! ## Library functions used by the source -/

/-- Go `strings.Split(s, sep)` for a one-byte separator, on the bytes of `s`. -/
def splitOn (sep : Char) : List Char → List (List Char)
  | [] => [[]]
  | c :: cs =>
    if c = sep then [] :: splitOn sep cs
    else match splitOn sep cs with
      | [] => [[c]]
      | w :: ws => (c :: w) :: ws

/-- Go `strings.Split(s, ",")`. -/
def strings_Split (s : String) (sep : Char) : List String :=
  (splitOn sep s.data).map String.mk

/-- Go `strings.HasSuffix(s, suffix)`. -/
def strings_HasSuffix (s suffix : String) : Bool :=
  suffix.data.isSuffixOf s.data

/-- Go `strings.TrimSuffix(s, suffix)`. -/
def strings_TrimSuffix (s suffix : String) : String :=
  if strings_HasSuffix s suffix then String.mk (s.data.take (s.length - suffix.length)) else s

/-- The loop of Go `filepath.Ext`, on the reversed path: scan from the last
byte towards the first, stop at a separator, return the part from the last dot
on. `acc` is the part already scanned, in order. -/
def extLoop : List Char → List Char → List Char
  | [], _ => []
  | c :: rest, acc =>
    if c = '/' then []
    else if c = '.' then c :: acc
    else extLoop rest (c :: acc)

/-- Go `filepath.Ext(path)`: the suffix beginning at the final dot of the final
element of `path`, empty if there is no dot. -/
def filepath_Ext (path : String) : String :=
  String.mk (extLoop path.data.reverse [])

/-- The byte `digits[k]`. -/
def digitAt (k : Nat) : Char := digits.data.getD k '0'

/-- The `w` low decimal digits of `n`, most significant first. -/
def fixedDigits : Nat → Nat → List Char
  | 0, _ => []
  | w + 1, n => fixedDigits w (n / 10) ++ [digitAt (n % 10)]

/-- A number printed by `Time.Format` in a zero-padded field of width `w`. -/
def fmtNum (w n : Nat) : List Char :=
  if n < 10 ^ w then fixedDigits w n else (Nat.repr n).data

/-- A reading of the clock: the results of `Date()` and `Clock()`. -/
structure Clock where
  year : Nat
  month : Nat
  day : Nat
  hour : Nat
  minute : Nat
  second : Nat
  deriving DecidableEq

/-- Go `t.Format("2006" + sep + "01" + sep + "02")`. -/
def Clock.fmtDate (t : Clock) (sep : Char) : String :=
  String.mk (fmtNum 4 t.year ++ [sep] ++ fmtNum 2 t.month ++ [sep] ++ fmtNum 2 t.day)

/-- Go `fmt.Fprintln`: the operands (already rendered) separated by spaces,
without the final newline. -/
def joinOperands : List String → List Char
  | [] => []
  | [a] => a.data
  | a :: b :: rest => a.data ++ ' ' :: joinOperands (b :: rest)

/-! ## Data model (log.go 53-80, mail.go 13-21) -/

structure MailConfig where
  Host : String
  Port : Int
  User : String
  Password : String
  Nickname : String
  Subject : String
  MailSendObjs : Option (List String)

structure Config where
  NewOutObj : Bool
  LogFileClose : Bool
  ConsoleClose : Bool
  CallInfo : Bool
  ShortPath : Bool
  MaxStorageDay : Int
  FlushInterval : Int
  MaxSize : Int
  Path : String
  MaiOpen : Bool
  Mail : MailConfig

/-- The logger. `file` is the open handle, named by the path it was opened at;
`writer` holds the bytes buffered by the `bufio.Writer` (capacity
`bufferSize`). The pool and the lock carry no data of their own. -/
structure LoggerObj where
  config : Config
  size : Int
  lpath : String
  lname : String
  lsuffix : String
  created : String
  level : logLevel
  writer : List Char
  file : Option String

/-- The pooled formatting buffer: the 64-byte scratch array and the growing
byte sequence. -/
structure buffer where
  temp : Nat → Char
  bytes : List Char

/-- A regular file: its bytes on disk and its modification time. -/
structure File where
  content : List Char
  modTime : Clock
  deriving DecidableEq

abbrev FS := String → Option File

/-- What the logger acts on: the files, the bytes sent to standard error, the
number of retention sweeps started, and the attachment names of the mails
requested. -/
structure World where
  fs : FS
  stderr : List Char
  sweeps : Nat
  mails : List String

/-! ## Levels (log.go 44-51) -/

def logLevel.Str (lv : logLevel) : String :=
  if DEBUG ≤ lv ∧ lv ≤ FATAL then
    let levels := strings_Split logShort ','
    let colors := strings_Split colorShort ','
    "\x1b[1;" ++ colors.getD lv.toNat "" ++ ";40m" ++ levels.getD lv.toNat "" ++ "\x1b[0m"
  else "[NONE]"

/-! ## The formatting buffer (log.go 337-369) -/

/-- The assignment `temp[i] = c`. -/
def setAt (temp : Nat → Char) (i : Nat) (c : Char) : Nat → Char :=
  fun j => if j = i then c else temp j

/-- The slice `temp[lo:hi]`. -/
def slice (temp : Nat → Char) (lo hi : Nat) : List Char :=
  (List.range' lo (hi - lo)).map temp

/-- Go `copy(temp[i:i+len(src)], src)`. -/
def copyAt (temp : Nat → Char) (i : Nat) (src : List Char) : Nat → Char :=
  fun j => if i ≤ j ∧ j < i + src.length then src.getD (j - i) '0' else temp j

def buffer.write2 (buf : buffer) (i d : Nat) : buffer :=
  let t1 := setAt buf.temp (i + 1) (digitAt (d % 10))
  let d1 := d / 10
  { buf with temp := setAt t1 i (digitAt (d1 % 10)) }

def buffer.write4 (buf : buffer) (i d : Nat) : buffer :=
  let t1 := setAt buf.temp (i + 3) (digitAt (d % 10))
  let d1 := d / 10
  let t2 := setAt t1 (i + 2) (digitAt (d1 % 10))
  let d2 := d1 / 10
  let t3 := setAt t2 (i + 1) (digitAt (d2 % 10))
  let d3 := d2 / 10
  { buf with temp := setAt t3 i (digitAt (d3 % 10)) }

/-- The loop `for d > 0 { j--; temp[j] = digits[d%10]; d /= 10 }`; the first
argument bounds the number of rounds (`j` starts at 64 and cannot pass 0). -/
def writeNLoop : Nat → (Nat → Char) → Nat → Nat → (Nat → Char) × Nat
  | 0, temp, j, _ => (temp, j)
  | fuel + 1, temp, j, d =>
    if d > 0 then writeNLoop fuel (setAt temp (j - 1) (digitAt (d % 10))) (j - 1) (d / 10)
    else (temp, j)

/-- Writes the decimal digits of `d` at `temp[i:]`; returns the number of
bytes copied. -/
def buffer.writeN (buf : buffer) (i d : Nat) : buffer × Nat :=
  let r := writeNLoop 64 buf.temp 64 d
  let n := min (64 - i) (64 - r.2)
  ({ buf with temp := copyAt r.1 i (slice r.1 r.2 (r.2 + n)) }, n)

def buffer.Write (buf : buffer) (p : List Char) : buffer :=
  { buf with bytes := buf.bytes ++ p }

/-! ## The header (log.go 373-425) -/

/-- The short-path loop of `header` (log.go 402-414):
`for i := len(file)-1; i > 0; i--`, with the flag `one`; the result is the
value of `short` when the loop ends. -/
def shortLoop (file : List Char) : Nat → Bool → List Char
  | 0, _ => file
  | i + 1, one =>
    if file.get? (i + 1) = some '/' then
      if one then file.drop (i + 2) else shortLoop file i true
    else shortLoop file i one

/-- The path written by `header` in short-path mode. -/
def shortPath (file : String) : String :=
  String.mk (shortLoop file.data (file.length - 1) false)

/-- The method `header(lv, depth)`. `now` is the reading of `time.Now()`,
`caller` the result of `runtime.Caller(3 + depth)` (`none` when it reports
failure), `pooled` the buffer handed out by the pool. -/
def LoggerObj.header (lo : LoggerObj) (now : Clock) (caller : Option (String × Nat))
    (pooled : buffer) (lv : logLevel) : buffer :=
  let b1 := pooled.write4 0 now.year
  let b2 : buffer := { b1 with temp := setAt b1.temp 4 '/' }
  let b3 := b2.write2 5 now.month
  let b4 : buffer := { b3 with temp := setAt b3.temp 7 '/' }
  let b5 := b4.write2 8 now.day
  let b6 : buffer := { b5 with temp := setAt b5.temp 10 ' ' }
  let b7 := b6.write2 11 now.hour
  let b8 : buffer := { b7 with temp := setAt b7.temp 13 ':' }
  let b9 := b8.write2 14 now.minute
  let b10 : buffer := { b9 with temp := setAt b9.temp 16 ':' }
  let b11 := b10.write2 17 now.second
  let b12 : buffer := { b11 with temp := setAt b11.temp 19 ' ' }
  let lvNum := 20 + (logLevel.Str lv).length
  let b13 : buffer := { b12 with temp := copyAt b12.temp 20 (logLevel.Str lv).data }
  let b14 : buffer := { b13 with temp := setAt b13.temp lvNum ' ' }
  let b15 := b14.Write (slice b14.temp 0 (lvNum + 1))
  if lo.config.CallInfo then
    let file0 := match caller with
      | some c => c.1
      | none => "###"
    let line := match caller with
      | some c => c.2
      | none => 1
    let file := if lo.config.ShortPath then shortPath file0 else file0
    let c1 := b15.Write ("[ " ++ file).data
    let c2 : buffer := { c1 with temp := setAt c1.temp 0 ':' }
    let r := c2.writeN 1 line
    let n := r.2
    let c3 : buffer := { r.1 with
      temp := setAt (setAt (setAt r.1.temp (n + 1) ' ') (n + 2) ']') (n + 3) ':' }
    c3.Write (slice c3.temp 0 (n + 4))
  else b15

/-! ## Record construction (log.go 428-452) -/

/-- The bytes `println` hands to `Write`: the header, then `fmt.Fprintln` of
the operands. `temp` is the scratch array of the pooled buffer, whose byte
sequence is empty (it is reset before it goes back to the pool). -/
def LoggerObj.printlnRecord (lo : LoggerObj) (now : Clock) (caller : Option (String × Nat))
    (temp : Nat → Char) (lv : logLevel) (args : List String) : List Char :=
  let buf := lo.header now caller ⟨temp, []⟩ lv
  (buf.Write (joinOperands args ++ ['\n'])).bytes

/-- The bytes `printf` hands to `Write`; `formatted` is the text
`fmt.Fprintf(buf, format, args...)` writes. -/
def LoggerObj.printfRecord (lo : LoggerObj) (now : Clock) (caller : Option (String × Nat))
    (temp : Nat → Char) (lv : logLevel) (formatted : String) : List Char :=
  let buf := (lo.header now caller ⟨temp, []⟩ lv).Write formatted.data
  if buf.bytes.getLast? ≠ some '\n' then (buf.Write ['\n']).bytes else buf.bytes

/-! ## Files -/

/-- Go `os.Stat(p)` returned no error. -/
def FS.found (fs : FS) (p : String) : Bool := (fs p).isSome

/-- Go `os.Rename(old, new)`; on an absent `old` nothing changes (the caller
drops the error). -/
def FS.rename (fs : FS) (old new : String) : FS :=
  match fs old with
  | none => fs
  | some f => fun p => if p = new then some f else if p = old then none else fs p

/-- Go `os.OpenFile(p, O_CREATE|O_RDWR|O_APPEND, 0666)`: an absent file is
created empty. -/
def FS.create (fs : FS) (path : String) (now : Clock) : FS :=
  match fs path with
  | some _ => fs
  | none => fun p => if p = path then some ⟨[], now⟩ else fs p

/-- A write through a handle opened with `O_APPEND`. -/
def FS.append (fs : FS) (path : String) (data : List Char) (now : Clock) : FS :=
  match fs path with
  | some f => fun p => if p = path then some ⟨f.content ++ data, now⟩ else fs p
  | none => fs

/-- Go `(*bufio.Writer).Flush`: the buffered bytes go to the file. -/
def bufioFlush (fs : FS) (h : String) (now : Clock) (buffered : List Char) : FS :=
  if buffered.length = 0 then fs else fs.append h buffered now

/-- Go `(*bufio.Writer).Write(p)` on a writer of capacity `bufferSize`: while
`p` is longer than the free space, either `p` goes to the file directly (empty
buffer) or the buffer is filled and flushed; what is left is buffered. The
loop runs at most twice. Returns the files and the bytes buffered. -/
def bufioWrite (fs : FS) (h : String) (now : Clock) (buffered p : List Char) :
    FS × List Char :=
  if p.length > bufferSize - buffered.length then
    if buffered.length = 0 then (fs.append h p now, [])
    else
      let n := bufferSize - buffered.length
      let fs1 := fs.append h (buffered ++ p.take n) now
      let p1 := p.drop n
      if p1.length > bufferSize then (fs1.append h p1 now, []) else (fs1, p1)
  else (fs, buffered ++ p)

/-! ## Construction (log.go 86-154) -/

def LoggerObj.newLogger (lo : LoggerObj) : LoggerObj :=
  let lpath := lo.config.Path
  let lsuffix := filepath_Ext lpath
  let lname := strings_TrimSuffix lpath lsuffix
  { lo with
    lpath := lpath
    lsuffix := if lsuffix = "" then ".log" else lsuffix
    lname := lname
    level := DEBUG }

/-- Go `new(LoggerObj)` with the configuration set. -/
def LoggerObj.zero (c : Config) : LoggerObj :=
  { config := c, size := 0, lpath := "", lname := "", lsuffix := "", created := "",
    level := 0, writer := [], file := none }

/-- The check of `checkMailInfo`: `true` when the process goes on. -/
def checkMailInfo (mc : MailConfig) : Bool :=
  !(mc.User = "" || mc.Subject = "" || mc.Nickname = "" || mc.MailSendObjs.isNone
    || mc.Password = "")

/-- The defaults `NewLoggerObj` fills in. -/
def Config.withDefaults (c : Config) : Config :=
  let c1 := if c.Path = "" then { c with Path := "logs/log.log" } else c
  let c2 := if c1.FlushInterval = 0 then { c1 with FlushInterval := flushInterval } else c1
  let c3 := if c2.MaxStorageDay = 0 then { c2 with MaxStorageDay := maxStorageDay } else c2
  if c3.MaxSize = 0 then { c3 with MaxSize := maxSize } else c3

/-- Go `NewLoggerObj(c)`; `g` is the package variable `lo`. Returns the new
logger and the new value of the package variable, or `none` when the mail
check ends the process. -/
def NewLoggerObj (g : Option LoggerObj) (c : Config) : Option (LoggerObj × Option LoggerObj) :=
  if c.MaiOpen && !c.LogFileClose && !checkMailInfo c.Mail then none
  else
    let nlo := (LoggerObj.zero c.withDefaults).newLogger
    if c.NewOutObj then some (nlo, g) else some (nlo, some nlo)

def emptyMail : MailConfig :=
  { Host := "", Port := 0, User := "", Password := "", Nickname := "", Subject := "",
    MailSendObjs := none }

/-- Go `InitLogger()`: the value it gives the package variable. -/
def InitLogger : LoggerObj :=
  (LoggerObj.zero
    { NewOutObj := false, LogFileClose := false, ConsoleClose := false, CallInfo := false,
      ShortPath := false, MaxStorageDay := maxStorageDay, FlushInterval := flushInterval,
      MaxSize := maxSize, Path := "logs/log.log", MaiOpen := false, Mail := emptyMail }).newLogger

/-- Go `checkLoggerObj()`: the package variable afterwards. -/
def checkLoggerObj (g : Option LoggerObj) : LoggerObj :=
  match g with
  | some l => l
  | none => InitLogger

/-! ## Setters (log.go 283-306) -/

def LoggerObj.SetCallInfo (lo : LoggerObj) (b : Bool) : LoggerObj :=
  { lo with config := { lo.config with CallInfo := b } }

def LoggerObj.SetShortPath (lo : LoggerObj) (b : Bool) : LoggerObj :=
  { lo with config := { lo.config with ShortPath := b } }

/-- The package function `SetCallInfo(b)`, on the package variable. -/
def SetCallInfo (g : Option LoggerObj) (b : Bool) : Option LoggerObj :=
  some ((checkLoggerObj g).SetCallInfo b)

/-- The package function `SetShortPath(b)`, on the package variable
(log.go 297-300). -/
def SetShortPath (g : Option LoggerObj) (b : Bool) : Option LoggerObj :=
  some ((checkLoggerObj g).SetCallInfo b)

/-! ## Rotation and writing (log.go 455-589) -/

/-- Go `sendmail`: a mail is requested when mail is on and a file is open. -/
def LoggerObj.sendmail (lo : LoggerObj) (w : World) : World :=
  match lo.file with
  | some h => if lo.config.MaiOpen then { w with mails := w.mails ++ [h] } else w
  | none => w

/-- The loop of `rotate` that looks for a backup name (log.go 528-536);
`ex` is `os.Stat` succeeding, `name i` the name with number `i`, the first
argument the number of rounds left. -/
def backupLoop (ex : String → Bool) (name : Nat → String) : Nat → Nat → String → String
  | 0, _, fbak => fbak
  | n + 1, i, fbak => if ex fbak then backupLoop ex name n (i + 1) (name i) else fbak

/-- The name with number `i`: `lname + Sprintf("%s_%d", stamp, i) + lsuffix`. -/
def LoggerObj.numbered (lo : LoggerObj) (now : Clock) (i : Nat) : String :=
  lo.lname ++ ("_" ++ now.fmtDate '-' ++ "_" ++ Nat.repr i) ++ lo.lsuffix

/-- The first name tried: `lname + now.Format("_2006-01-02") + lsuffix`. -/
def LoggerObj.dated (lo : LoggerObj) (now : Clock) : String :=
  lo.lname ++ ("_" ++ now.fmtDate '-') ++ lo.lsuffix

/-- The value of `fbak` when `rotate` renames (paths are taken to be clean, so
that `filepath.Join` of one element returns it). -/
def LoggerObj.backupName (lo : LoggerObj) (fs : FS) (now : Clock) : String :=
  backupLoop fs.found (lo.numbered now) 1000 0 (lo.dated now)

def LoggerObj.rotate (lo : LoggerObj) (w : World) (now : Clock) : LoggerObj × World :=
  if lo.config.LogFileClose then (lo, w)
  else
    let s1 : LoggerObj × World :=
      match lo.file with
      | some h =>
        let fs1 := bufioFlush w.fs h now lo.writer
        let w1 := lo.sendmail { w with fs := fs1 }
        let fbak := lo.backupName fs1 now
        ({ lo with size := 0, writer := [] }, { w1 with fs := fs1.rename lo.lpath fbak })
      | none => (lo, w)
    let finfo := s1.2.fs lo.lpath
    ({ s1.1 with
        size := match finfo with
          | some f => f.content.length
          | none => s1.1.size
        created := match finfo with
          | some f => f.modTime.fmtDate '/'
          | none => now.fmtDate '/'
        file := some lo.lpath
        writer := [] },
     { s1.2 with fs := s1.2.fs.create lo.lpath now })

/-- Go `flushSync`. -/
def LoggerObj.flushSync (lo : LoggerObj) (w : World) (now : Clock) : LoggerObj × World :=
  match lo.file with
  | some h => ({ lo with writer := [] }, { w with fs := bufioFlush w.fs h now lo.writer })
  | none => (lo, w)

def LoggerObj.Flush (lo : LoggerObj) (w : World) (now : Clock) : LoggerObj × World :=
  if lo.config.LogFileClose then (lo, w) else lo.flushSync w now

/-- The console echo of `Write` (log.go 458-460). -/
def LoggerObj.echo (lo : LoggerObj) (w : World) (buf : List Char) : World :=
  if lo.config.ConsoleClose then w else { w with stderr := w.stderr ++ buf }

/-- Go `Write(buf)`: the number of bytes written, the logger and the world
afterwards; `none` when the call panics (no writer, or a record shorter than
the ten bytes of the day stamp: the slice `buf[0:10]` is taken to need ten
bytes of length). -/
def LoggerObj.Write (lo : LoggerObj) (w : World) (now : Clock) (buf : List Char) :
    Option (Nat × LoggerObj × World) :=
  let w0 : World := lo.echo w buf
  if lo.config.LogFileClose then some (0, lo, w0)
  else
    let s1 : LoggerObj × World := if lo.file.isNone then lo.rotate w0 now else (lo, w0)
    if buf.length < 10 then none
    else
      let s2 : LoggerObj × World :=
        if s1.1.created ≠ String.mk (buf.take 10) then
          s1.1.rotate { s1.2 with sweeps := s1.2.sweeps + 1 } now
        else s1
      let s3 : LoggerObj × World :=
        if s2.1.size + (buf.length : Int) ≥ s2.1.config.MaxSize then s2.1.rotate s2.2 now
        else s2
      match s3.1.file with
      | none => none
      | some h =>
        let r := bufioWrite s3.2.fs h now s3.1.writer buf
        some (buf.length,
          { s3.1 with size := s3.1.size + (buf.length : Int), writer := r.2 },
          { s3.2 with fs := r.1 })

/-- Go `println(lv, args...)`: nothing below the threshold, else the record
goes to `Write`. `hnow` is the clock read by `header`, `wnow` by `Write`. -/
def LoggerObj.println (lo : LoggerObj) (w : World) (hnow wnow : Clock)
    (caller : Option (String × Nat)) (temp : Nat → Char) (lv : logLevel)
    (args : List String) : Option (LoggerObj × World) :=
  if lv < lo.level then some (lo, w)
  else (lo.Write w wnow (lo.printlnRecord hnow caller temp lv args)).map Prod.snd

/-- Go `printf(lv, format, args...)`. -/
def LoggerObj.printf (lo : LoggerObj) (w : World) (hnow wnow : Clock)
    (caller : Option (String × Nat)) (temp : Nat → Char) (lv : logLevel)
    (formatted : String) : Option (LoggerObj × World) :=
  if lv < lo.level then some (lo, w)
  else (lo.Write w wnow (lo.printfRecord hnow caller temp lv formatted)).map Prod.snd

/-! ## The retention sweep (log.go 492-513) -/

/-- An entry of a directory tree: a file, or a directory with its entries.
Times are instants, in nanoseconds. -/
inductive Entry where
  | file (name : String) (modTime : Int)
  | dir (name : String) (modTime : Int) (children : List Entry)

/-- The `os.FileInfo` the walk hands to its callback. -/
structure FileInfo where
  Name : String
  IsDir : Bool
  ModTime : Int

def Entry.name : Entry → String
  | .file n _ => n
  | .dir n _ _ => n

/-- Go `filepath.Join(dir, name)` for a clean `dir` and a file name. -/
def filepath_Join (dir name : String) : String :=
  if dir = "." then name
  else if strings_HasSuffix dir "/" then dir ++ name
  else dir ++ "/" ++ name

mutual
/-- Go `filepath.Walk`, with a callback that never returns an error: the
entries visited, each with its path, the root first and every directory before
its entries. -/
def walk (path : String) : Entry → List (String × FileInfo)
  | .file n t => [(path, ⟨n, false, t⟩)]
  | .dir n t cs => (path, ⟨n, true, t⟩) :: walkList path cs
/-- The walk of the entries of the directory at `path`. -/
def walkList (path : String) : List Entry → List (String × FileInfo)
  | [] => []
  | c :: cs => walk (filepath_Join path c.name) c ++ walkList path cs
end

/-- One day, in nanoseconds. -/
def dayNanos : Int := 86400 * 1000000000

/-- Go `filepath.Dir`, for a clean path: the path without its last element. -/
def filepath_Dir (path : String) : String :=
  let d := (path.data.reverse.dropWhile (fun c => c != '/')).dropWhile (fun c => c == '/')
  if d.isEmpty then (if path.data.head? = some '/' then "/" else ".") else String.mk d.reverse

/-- The test of the callback of `delete` (log.go 508): `true` when
`os.Remove(fpath)` is called. -/
def LoggerObj.removes (lo : LoggerObj) (fakeNow : Int) (info : FileInfo) : Bool :=
  !info.IsDir && decide (info.ModTime < fakeNow) && strings_HasSuffix info.Name lo.lsuffix

/-- Go `delete()`: the paths handed to `os.Remove`. `now` is the instant read
by `time.Now()`, `root` the tree at `filepath.Dir(lo.lpath)` (`none` when there
is nothing there); `AddDate(0, 0, -n)` is taken as `n` days of 24 hours. -/
def LoggerObj.delete (lo : LoggerObj) (now : Int) (root : Option Entry) : List String :=
  if lo.config.MaxStorageDay < 0 then []
  else
    let dir := filepath_Dir lo.lpath
    let fakeNow := now - lo.config.MaxStorageDay * dayNanos
    match root with
    | none => []
    | some e => ((walk dir e).filter (fun x => lo.removes fakeNow x.2)).map Prod.fst

/-! ## Notions used to state the properties -/

/-- A record ends in exactly one newline. -/
def endsInOneNewline (r : List Char) : Prop :=
  r.getLast? = some '\n' ∧ r.dropLast.getLast? ≠ some '\n'

instance (r : List Char) : Decidable (endsInOneNewline r) := by
  unfold endsInOneNewline; infer_instance

/-- The number a sequence of decimal digits denotes. -/
def decimalValue (ds : List Char) : Nat :=
  ds.foldl (fun acc c => acc * 10 + (c.toNat - 48)) 0

/-- The bracketed label of a level. -/
def levelTag (lv : logLevel) : String :=
  if lv = 0 then "[DEBUG]" else if lv = 1 then "[INFO]" else if lv = 2 then "[WARN]"
  else if lv = 3 then "[ERROR]" else "[FATAL]"

/-- The colour number of a level. -/
def levelColor (lv : logLevel) : String :=
  if lv = 0 then "37" else if lv = 1 then "34" else if lv = 2 then "33"
  else if lv = 3 then "31" else "35"

/-- A reading of a real clock, with a year of at most four digits. -/
def Clock.valid (t : Clock) : Prop :=
  t.year ≤ 9999 ∧ 1 ≤ t.month ∧ t.month ≤ 12 ∧ 1 ≤ t.day ∧ t.day ≤ 31 ∧ t.hour < 24 ∧
    t.minute < 60 ∧ t.second < 60

instance (t : Clock) : Decidable t.valid := by
  unfold Clock.valid; infer_instance

/-- The timestamp `YYYY/MM/DD HH:MM:SS` of a clock reading. -/
def Clock.stamp (t : Clock) : List Char :=
  (t.fmtDate '/').data ++ [' '] ++ fmtNum 2 t.hour ++ [':'] ++ fmtNum 2 t.minute ++ [':']
    ++ fmtNum 2 t.second

/-- The backup names `rotate` may choose, in the order it tries them. -/
def LoggerObj.candidates (lo : LoggerObj) (now : Clock) : List String :=
  lo.dated now :: (List.range 1000).map (lo.numbered now)

/-- The names of a logger fit together the way `newLogger` sets them: the path
is the name followed by an extension no longer than the suffix. -/
def LoggerObj.namesOk (lo : LoggerObj) : Prop :=
  lo.lpath.length ≤ lo.lname.length + lo.lsuffix.length

instance (lo : LoggerObj) : Decidable lo.namesOk := by
  unfold LoggerObj.namesOk; infer_instance

/-- The bytes of the file at `p` seen through the writer: what is on disk
followed by what the writer still holds. -/
def logical (fs : FS) (p : String) (buffered : List Char) : Option (List Char) :=
  (fs p).map (fun f => f.content ++ buffered)

/-- The bytes on disk of the file at `p`. -/
def onDisk (fs : FS) (p : String) : Option (List Char) :=
  (fs p).map File.content

/-- The state of `Write` once a file is open (log.go 464-469). -/
def LoggerObj.opened (lo : LoggerObj) (w : World) (now : Clock) (buf : List Char) :
    LoggerObj × World :=
  if lo.file.isNone then lo.rotate (lo.echo w buf) now else (lo, lo.echo w buf)

/-- The cut by day of `Write` (log.go 471-476). -/
def dayCut (s : LoggerObj × World) (now : Clock) (buf : List Char) : LoggerObj × World :=
  if s.1.created ≠ String.mk (buf.take 10) then
    s.1.rotate { s.2 with sweeps := s.2.sweeps + 1 } now
  else s

/-- The cut by size of `Write` (log.go 478-482). -/
def sizeCut (s : LoggerObj × World) (now : Clock) (buf : List Char) : LoggerObj × World :=
  if s.1.size + (buf.length : Int) ≥ s.1.config.MaxSize then s.1.rotate s.2 now else s

/-- The append of `Write` (log.go 483-488). -/
def appended (s : LoggerObj × World) (now : Clock) (buf : List Char) :
    Option (Nat × LoggerObj × World) :=
  match s.1.file with
  | none => none
  | some h =>
    let r := bufioWrite s.2.fs h now s.1.writer buf
    some (buf.length,
      { s.1 with size := s.1.size + (buf.length : Int), writer := r.2 },
      { s.2 with fs := r.1 })

/-- The logger can write: file output is on, the names fit, and an open handle
is a handle on the log path. -/
def LoggerObj.ready (lo : LoggerObj) : Prop :=
  lo.config.LogFileClose = false ∧ lo.namesOk ∧ (lo.file = none ∨ lo.file = some lo.lpath)

instance (lo : LoggerObj) : Decidable lo.ready := by
  unfold LoggerObj.ready; infer_instance

/-- The day stamp `Write` compares the record with: the stored stamp when a
file is open; when none is open, the last-modified day of the file it finds at
the log path and reopens, or the date of the clock when it finds none. -/
def LoggerObj.stampSeen (lo : LoggerObj) (w : World) (now : Clock) : String :=
  match lo.file with
  | some _ => lo.created
  | none =>
    match w.fs lo.lpath with
    | some f => f.modTime.fmtDate '/'
    | none => now.fmtDate '/'

/-- The size `Write` adds the record to: the stored size when a file is open;
when none is open, the length of the file it finds at the log path and
reopens, or the stored size when it finds none. -/
def LoggerObj.sizeSeen (lo : LoggerObj) (w : World) : Int :=
  match lo.file with
  | some _ => lo.size
  | none =>
    match w.fs lo.lpath with
    | some f => f.content.length
    | none => lo.size

/-- A regular file of the tree rooted at `path`: its path, name and
modification time. -/
inductive FileAt : String → Entry → String → String → Int → Prop
  | here (p n : String) (t : Int) : FileAt p (.file n t) p n t
  | inside (p dn : String) (dt : Int) (cs : List Entry) (c : Entry) (q n : String) (t : Int) :
      c ∈ cs → FileAt (filepath_Join p c.name) c q n t → FileAt p (.dir dn dt cs) q n t

/-- A step of a logger with file output enabled. -/
inductive Op where
  | write (now : Clock) (buf : List Char)
  | rotate (now : Clock)
  | flush (now : Clock)

/-- The record of a write has the ten bytes of a day stamp. -/
def Op.ok : Op → Prop
  | .write _ buf => 10 ≤ buf.length
  | _ => True

instance (op : Op) : Decidable op.ok := by
  cases op <;> unfold Op.ok <;> infer_instance

def step (s : LoggerObj × World) : Op → Option (LoggerObj × World)
  | .write now buf => (s.1.Write s.2 now buf).map Prod.snd
  | .rotate now => some (s.1.rotate s.2 now)
  | .flush now => some (s.1.Flush s.2 now)

def run (s : LoggerObj × World) : List Op → Option (LoggerObj × World)
  | [] => some s
  | op :: ops => (step s op).bind (fun s1 => run s1 ops)

/-- The size invariant: with a file open, the file is at the log path and the
size field is its length on disk plus the bytes buffered; with none open, the
size is 0 and nothing is buffered. -/
def sizeInv (s : LoggerObj × World) : Prop :=
  match s.1.file with
  | some h => h = s.1.lpath ∧
      ∃ f, s.2.fs s.1.lpath = some f ∧ s.1.size = (f.content.length : Int) + s.1.writer.length
  | none => s.1.size = 0 ∧ s.1.writer = []

/-- The invariant of a logger that writes to a file: file output is on, the
names fit, and the size invariant holds. -/
def loggerInv (s : LoggerObj × World) : Prop :=
  s.1.config.LogFileClose = false ∧ s.1.namesOk ∧ sizeInv s

/-! ## Example data -/

def exConfig : Config :=
  { NewOutObj := true, LogFileClose := false, ConsoleClose := false, CallInfo := false,
    ShortPath := false, MaxStorageDay := 60, FlushInterval := flushInterval,
    MaxSize := 100, Path := "logs/app.log", MaiOpen := false, Mail := emptyMail }

def exClock : Clock := ⟨2021, 5, 12, 16, 52, 7⟩

def exNext : Clock := ⟨2021, 5, 13, 0, 0, 1⟩

def exFile : File := ⟨"2021/05/12 16:00:00 one\n".data, exClock⟩

/-- A logger with `logs/app.log` open since 2021/05/12, 24 bytes on disk and
nothing buffered. -/
def exLogger : LoggerObj :=
  { (LoggerObj.zero exConfig).newLogger with
    size := 24, created := "2021/05/12", file := some "logs/app.log" }

/-- The logger of the example configuration as constructed: no file open. -/
def exFresh : LoggerObj := (LoggerObj.zero exConfig).newLogger

def exWorld : World :=
  { fs := fun p => if p = "logs/app.log" then some exFile else none,
    stderr := [], sweeps := 0, mails := [] }

def exTemp : Nat → Char := fun _ => '0'

/-- A record of 24 bytes of 2021/05/12. -/
def exShort : List Char := "2021/05/12 16:52:07 two\n".data

/-- A record of 101 bytes of 2021/05/12. -/
def exLong : List Char := "2021/05/12 16:52:07 ".data ++ List.replicate 80 'x' ++ ['\n']

/-- A record of 2021/05/13. -/
def exTomorrow : List Char := "2021/05/13 00:00:01 three\n".data

/-- A record of 2021/05/11, formatted before the file of 2021/05/12 was opened. -/
def exStale : List Char := "2021/05/11 23:59:59 late\n".data

def exTree : Entry :=
  .dir "logs" 0
    [.file "app.log" (100 * dayNanos), .file "old.log" (10 * dayNanos),
     .file "old.txt" (10 * dayNanos), .dir "sub.log" (10 * dayNanos) []]

/-! ## Lemmas: the header -/

theorem digitAt_toNat (k : Nat) (h : k < 10) : (digitAt k).toNat - 48 = k := by
  interval_cases k <;> decide

theorem decimalValue_fixed2 (n : Nat) (h : n < 100) : decimalValue (fixedDigits 2 n) = n := by
  have h1 : n / 10 % 10 < 10 := Nat.mod_lt _ (by norm_num)
  have h2 : n % 10 < 10 := Nat.mod_lt _ (by norm_num)
  simp [decimalValue, fixedDigits, digitAt_toNat _ h1, digitAt_toNat _ h2]
  omega

theorem decimalValue_fixed4 (n : Nat) (h : n < 10000) : decimalValue (fixedDigits 4 n) = n := by
  have h1 : n / 10 % 10 < 10 := Nat.mod_lt _ (by norm_num)
  have h2 : n % 10 < 10 := Nat.mod_lt _ (by norm_num)
  have h3 : n / 10 / 10 % 10 < 10 := Nat.mod_lt _ (by norm_num)
  have h4 : n / 10 / 10 / 10 % 10 < 10 := Nat.mod_lt _ (by norm_num)
  simp [decimalValue, fixedDigits, digitAt_toNat _ h1, digitAt_toNat _ h2, digitAt_toNat _ h3, digitAt_toNat _ h4]
  omega

theorem Str_eq (lv : Int) (h0 : 0 ≤ lv) (h4 : lv ≤ 4) :
    logLevel.Str lv = "\x1b[1;" ++ levelColor lv ++ ";40m" ++ levelTag lv ++ "\x1b[0m" := by
  have : lv = 0 ∨ lv = 1 ∨ lv = 2 ∨ lv = 3 ∨ lv = 4 := by omega
  rcases this with h | h | h | h | h <;> subst h <;> decide


theorem slice_succ (t : Nat → Char) (n : Nat) : slice t 0 (n + 1) = slice t 0 n ++ [t n] := by
  simp [slice, List.range'_concat]

theorem header_bytes_plain (lo : LoggerObj) (now : Clock) (caller : Option (String × Nat))
    (pooled : buffer) (lv : Int) (h0 : 0 ≤ lv) (h4 : lv ≤ 4) (hc : lo.config.CallInfo = false) :
    (lo.header now caller pooled lv).bytes = pooled.bytes ++ (fixedDigits 4 now.year ++ ['/'] ++ fixedDigits 2 now.month ++ ['/'] ++ fixedDigits 2 now.day ++ [' '] ++ fixedDigits 2 now.hour ++ [':'] ++ fixedDigits 2 now.minute ++ [':'] ++ fixedDigits 2 now.second ++ [' '] ++ (logLevel.Str lv).data ++ [' ']) := by
  have : lv = 0 ∨ lv = 1 ∨ lv = 2 ∨ lv = 3 ∨ lv = 4 := by omega
  rcases this with h | h | h | h | h <;> subst h <;>
    simp [LoggerObj.header, hc, buffer.Write, buffer.write4, buffer.write2, slice, setAt, copyAt, fixedDigits, List.range', logLevel.Str, DEBUG, FATAL, strings_Split, logShort, colorShort, splitOn, String.length]


theorem write_slice_getLast (b : buffer) (t : Nat → Char) (n : Nat) :
    (b.Write (slice t 0 (n + 1))).bytes.getLast? = some (t n) := by
  simp [buffer.Write, slice_succ]

theorem write_slice_getLast4 (b : buffer) (t : Nat → Char) (n : Nat) :
    (b.Write (slice t 0 (n + 4))).bytes.getLast? = some (t (n + 3)) :=
  write_slice_getLast b t (n + 3)

theorem header_getLast (lo : LoggerObj) (now : Clock) (caller : Option (String × Nat))
    (pooled : buffer) (lv : logLevel) :
    (lo.header now caller pooled lv).bytes.getLast? = some ' ' ∨
      (lo.header now caller pooled lv).bytes.getLast? = some ':' := by
  cases hc : lo.config.CallInfo
  · left
    simp only [LoggerObj.header, hc, Bool.false_eq_true, if_false, write_slice_getLast]
    simp [setAt]
  · right
    simp only [LoggerObj.header, hc, if_true, write_slice_getLast4]
    simp [setAt]

theorem header_getLast_ne (lo : LoggerObj) (now : Clock) (caller : Option (String × Nat))
    (pooled : buffer) (lv : logLevel) :
    (lo.header now caller pooled lv).bytes.getLast? ≠ some '\n' ∧
      (lo.header now caller pooled lv).bytes ≠ [] := by
  rcases header_getLast lo now caller pooled lv with h | h <;> rw [h] <;> simp <;> 
    intro h2 <;> simp [h2] at h

theorem getLast?_append_cases (a b : List Char) :
    (a ++ b).getLast? = if b = [] then a.getLast? else b.getLast? := by
  cases b using List.reverseRecOn with
  | nil => simp
  | append_singleton l x => simp [← List.append_assoc]

theorem println_one_newline_iff (lo : LoggerObj) (now : Clock) (caller : Option (String × Nat))
    (temp : Nat → Char) (lv : logLevel) (args : List String) :
    (lo.printlnRecord now caller temp lv args).getLast? = some '\n' ∧
    (endsInOneNewline (lo.printlnRecord now caller temp lv args) ↔
      (joinOperands args).getLast? ≠ some '\n') := by
  obtain ⟨h1, h2⟩ := header_getLast_ne lo now caller ⟨temp, []⟩ lv
  simp only [LoggerObj.printlnRecord, buffer.Write, endsInOneNewline, ← List.append_assoc]
  simp only [List.getLast?_concat, List.dropLast_concat, true_and]
  rw [getLast?_append_cases]
  by_cases hj : joinOperands args = []
  · simp [hj, h1]
  · simp [hj]

theorem printf_one_newline_iff (lo : LoggerObj) (now : Clock) (caller : Option (String × Nat))
    (temp : Nat → Char) (lv : logLevel) (formatted : String) :
    (lo.printfRecord now caller temp lv formatted).getLast? = some '\n' ∧
    (endsInOneNewline (lo.printfRecord now caller temp lv formatted) ↔
      ¬ (formatted.data.getLast? = some '\n' ∧ formatted.data.dropLast.getLast? = some '\n')) := by
  obtain ⟨h1, h2⟩ := header_getLast_ne lo now caller ⟨temp, []⟩ lv
  simp only [LoggerObj.printfRecord, buffer.Write, endsInOneNewline]
  by_cases hb : ((lo.header now caller ⟨temp, []⟩ lv).bytes ++ formatted.data).getLast? = some '\n'
  · simp only [hb, ne_eq, not_true_eq_false, if_false, true_and]
    rw [getLast?_append_cases] at hb
    by_cases hf : formatted.data = []
    · simp [hf] at hb; exact absurd hb h1
    · simp only [hf, if_false] at hb
      rw [List.dropLast_append_of_ne_nil _ hf, getLast?_append_cases]
      by_cases hd : formatted.data.dropLast = []
      · simp [hd, h1]
      · simp [hd, hb]
  · simp only [hb, ne_eq, not_false_eq_true, if_true, List.getLast?_concat, List.dropLast_concat, true_and]
    rw [getLast?_append_cases] at hb
    by_cases hf : formatted.data = []
    · simp [hf]
    · simp only [hf, if_false] at hb
      simp [hb]

/-! ## Lemmas: rotation and writing -/

/-! ### Backup names -/

theorem backupLoop_find (ex : String → Bool) (name : Nat → String) :
    ∀ (n i : Nat) (fbak : String),
      (∃ c ∈ fbak :: (List.range' i n).map name, ex c = false) →
      (fbak :: (List.range' i n).map name).find? (fun c => !ex c) =
        some (backupLoop ex name n i fbak) := by
  intro n
  induction n with
  | zero =>
    intro i fbak h
    obtain ⟨c, hc, hex⟩ := h
    simp at hc
    subst hc
    simp [backupLoop, List.find?, hex]
  | succ n ih =>
    intro i fbak h
    cases hf : ex fbak with
    | false => simp [backupLoop, List.find?, hf]
    | true =>
      have h2 : ∃ c ∈ name i :: (List.range' (i + 1) n).map name, ex c = false := by
        obtain ⟨c, hc, hex⟩ := h
        simp only [List.range'_succ, List.map_cons, List.mem_cons] at hc
        rcases hc with hc | hc
        · subst hc; rw [hf] at hex; exact absurd hex (by simp)
        · exact ⟨c, by simpa using hc, hex⟩
      have := ih (i + 1) (name i) h2
      simp only [List.range'_succ, List.map_cons, backupLoop, hf, if_true]
      rw [List.find?_cons]
      simpa [hf] using this

theorem backupLoop_mem (ex : String → Bool) (name : Nat → String) :
    ∀ (n i : Nat) (fbak : String),
      backupLoop ex name n i fbak ∈ fbak :: (List.range' i n).map name := by
  intro n
  induction n with
  | zero => intro i fbak; simp [backupLoop]
  | succ n ih =>
    intro i fbak
    cases hf : ex fbak with
    | false => simp [backupLoop, hf]
    | true =>
      simp only [backupLoop, hf, if_true, List.range'_succ, List.map_cons]
      exact List.mem_cons_of_mem _ (ih (i + 1) (name i))

theorem backupName_mem (lo : LoggerObj) (fs : FS) (now : Clock) :
    lo.backupName fs now ∈ lo.candidates now := by
  unfold LoggerObj.candidates LoggerObj.backupName
  rw [List.range_eq_range']
  exact backupLoop_mem fs.found (lo.numbered now) 1000 0 (lo.dated now)

theorem candidate_length (lo : LoggerObj) (now : Clock) (c : String)
    (hc : c ∈ lo.candidates now) : lo.lname.length + lo.lsuffix.length < c.length := by
  have h1 : "_".length = 1 := rfl
  unfold LoggerObj.candidates at hc
  simp only [List.mem_cons, List.mem_map, List.mem_range] at hc
  rcases hc with h | ⟨j, _, h⟩
  · rw [h]; simp only [LoggerObj.dated, String.length_append, h1]; omega
  · rw [← h]; simp only [LoggerObj.numbered, String.length_append, h1]; omega

theorem candidates_length (lo : LoggerObj) (now : Clock) : (lo.candidates now).length = 1001 := by
  simp [LoggerObj.candidates]

theorem backupName_find (lo : LoggerObj) (fs : FS) (now : Clock)
    (h : ∃ c ∈ lo.candidates now, fs.found c = false) :
    (lo.candidates now).find? (fun c => !fs.found c) = some (lo.backupName fs now) := by
  unfold LoggerObj.candidates LoggerObj.backupName at *
  rw [List.range_eq_range'] at *
  exact backupLoop_find fs.found (lo.numbered now) 1000 0 (lo.dated now) h

theorem backupName_unused (lo : LoggerObj) (fs : FS) (now : Clock)
    (h : ∃ c ∈ lo.candidates now, fs.found c = false) :
    fs.found (lo.backupName fs now) = false := by
  have := List.find?_some (backupName_find lo fs now h)
  simpa using this

theorem backupName_length (lo : LoggerObj) (fs : FS) (now : Clock) :
    lo.lname.length + lo.lsuffix.length < (lo.backupName fs now).length :=
  candidate_length lo now _ (backupName_mem lo fs now)

theorem backupName_ne_lpath (lo : LoggerObj) (fs : FS) (now : Clock) (hn : lo.namesOk) :
    lo.backupName fs now ≠ lo.lpath := by
  intro h
  have := backupName_length lo fs now
  rw [h] at this
  unfold LoggerObj.namesOk at hn
  omega


/-! ### Files -/

theorem found_bufioFlush (fs : FS) (h : String) (now : Clock) (b : List Char) :
    (bufioFlush fs h now b).found = fs.found := by
  funext p
  unfold bufioFlush FS.found FS.append
  by_cases hb : b.length = 0
  · simp [hb]
  · simp only [hb, if_false]
    cases hh : fs h with
    | none => rfl
    | some g =>
      by_cases hp : p = h
      · subst hp; simp [hh]
      · simp [hp]

theorem backupName_bufioFlush (lo : LoggerObj) (fs : FS) (h : String) (now t : Clock)
    (b : List Char) : lo.backupName (bufioFlush fs h now b) t = lo.backupName fs t := by
  unfold LoggerObj.backupName
  rw [found_bufioFlush]

theorem bufioFlush_at (fs : FS) (h : String) (now : Clock) (b : List Char) (f : File)
    (hx : fs h = some f) :
    ∃ g, bufioFlush fs h now b h = some g ∧ g.content = f.content ++ b := by
  unfold bufioFlush FS.append
  by_cases hb : b.length = 0
  · have : b = [] := List.length_eq_zero.mp hb
    subst this
    exact ⟨f, by simp [hx], by simp⟩
  · simp [hb, hx]

theorem bufioFlush_other (fs : FS) (h : String) (now : Clock) (b : List Char) (p : String)
    (hp : p ≠ h) : bufioFlush fs h now b p = fs p := by
  unfold bufioFlush FS.append
  by_cases hb : b.length = 0
  · simp [hb]
  · cases hh : fs h <;> simp [hb, hh, hp]

theorem sendmail_fs (lo : LoggerObj) (w : World) : (lo.sendmail w).fs = w.fs := by
  unfold LoggerObj.sendmail
  cases lo.file <;> simp
  split <;> rfl

theorem sendmail_sweeps (lo : LoggerObj) (w : World) : (lo.sendmail w).sweeps = w.sweeps := by
  unfold LoggerObj.sendmail
  cases lo.file <;> simp
  split <;> rfl

theorem sendmail_stderr (lo : LoggerObj) (w : World) : (lo.sendmail w).stderr = w.stderr := by
  unfold LoggerObj.sendmail
  cases lo.file <;> simp
  split <;> rfl

/-! ### Rotation -/

theorem rotate_sweeps (lo : LoggerObj) (w : World) (now : Clock) :
    (lo.rotate w now).2.sweeps = w.sweeps := by
  unfold LoggerObj.rotate
  by_cases hc : lo.config.LogFileClose = true
  · simp [hc]
  · cases hf : lo.file <;> simp [hc, sendmail_sweeps]

theorem rotate_stderr (lo : LoggerObj) (w : World) (now : Clock) :
    (lo.rotate w now).2.stderr = w.stderr := by
  unfold LoggerObj.rotate
  by_cases hc : lo.config.LogFileClose = true
  · simp [hc]
  · cases hf : lo.file <;> simp [hc, sendmail_stderr]

theorem rotate_open_fs (lo : LoggerObj) (w : World) (now : Clock)
    (hc : lo.config.LogFileClose = false) (hf : lo.file = some lo.lpath) :
    (lo.rotate w now).2.fs =
      ((bufioFlush w.fs lo.lpath now lo.writer).rename lo.lpath (lo.backupName w.fs now)).create
        lo.lpath now := by
  unfold LoggerObj.rotate
  simp [hc, hf, backupName_bufioFlush]

theorem rotate_open_lo (lo : LoggerObj) (w : World) (now : Clock) (f : File)
    (hc : lo.config.LogFileClose = false) (hf : lo.file = some lo.lpath)
    (hx : w.fs lo.lpath = some f) (hn : lo.namesOk) :
    (lo.rotate w now).1 =
      { lo with size := 0, created := now.fmtDate '/', file := some lo.lpath, writer := [] } := by
  obtain ⟨g, hg, _⟩ := bufioFlush_at w.fs lo.lpath now lo.writer f hx
  have hne := backupName_ne_lpath lo w.fs now hn
  unfold LoggerObj.rotate
  simp [hc, hf, backupName_bufioFlush, FS.rename, hg, Ne.symm hne]

theorem rotate_open_at_lpath (lo : LoggerObj) (w : World) (now : Clock) (f : File)
    (hc : lo.config.LogFileClose = false) (hf : lo.file = some lo.lpath)
    (hx : w.fs lo.lpath = some f) (hn : lo.namesOk) :
    (lo.rotate w now).2.fs lo.lpath = some ⟨[], now⟩ := by
  obtain ⟨g, hg, _⟩ := bufioFlush_at w.fs lo.lpath now lo.writer f hx
  have hne := backupName_ne_lpath lo w.fs now hn
  rw [rotate_open_fs lo w now hc hf]
  simp [FS.create, FS.rename, hg, Ne.symm hne]

theorem rotate_open_at_backup (lo : LoggerObj) (w : World) (now : Clock) (f : File)
    (hc : lo.config.LogFileClose = false) (hf : lo.file = some lo.lpath)
    (hx : w.fs lo.lpath = some f) (hn : lo.namesOk) :
    ∃ g, (lo.rotate w now).2.fs (lo.backupName w.fs now) = some g ∧
      g.content = f.content ++ lo.writer := by
  obtain ⟨g, hg, hgc⟩ := bufioFlush_at w.fs lo.lpath now lo.writer f hx
  have hne := backupName_ne_lpath lo w.fs now hn
  rw [rotate_open_fs lo w now hc hf]
  exact ⟨g, by simp [FS.create, FS.rename, hg, Ne.symm hne, hne], hgc⟩

theorem rotate_open_elsewhere (lo : LoggerObj) (w : World) (now : Clock) (f : File)
    (hc : lo.config.LogFileClose = false) (hf : lo.file = some lo.lpath)
    (hx : w.fs lo.lpath = some f) (hn : lo.namesOk) (p : String)
    (h1 : p ≠ lo.lpath) (h2 : p ≠ lo.backupName w.fs now) :
    (lo.rotate w now).2.fs p = w.fs p := by
  obtain ⟨g, hg, hgc⟩ := bufioFlush_at w.fs lo.lpath now lo.writer f hx
  have hne := backupName_ne_lpath lo w.fs now hn
  rw [rotate_open_fs lo w now hc hf]
  simp [FS.create, FS.rename, hg, Ne.symm hne, hne, h1, h2, bufioFlush_other]


theorem rotate_config (lo : LoggerObj) (w : World) (now : Clock) :
    (lo.rotate w now).1.config = lo.config ∧ (lo.rotate w now).1.lpath = lo.lpath ∧
    (lo.rotate w now).1.lname = lo.lname ∧ (lo.rotate w now).1.lsuffix = lo.lsuffix := by
  unfold LoggerObj.rotate
  by_cases hc : lo.config.LogFileClose = true
  · simp [hc]
  · cases hf : lo.file <;> simp [hc]

theorem rotate_file (lo : LoggerObj) (w : World) (now : Clock)
    (hc : lo.config.LogFileClose = false) : (lo.rotate w now).1.file = some lo.lpath := by
  unfold LoggerObj.rotate
  simp [hc]

/-! ### The buffered writer -/

theorem bufioWrite_at (fs : FS) (h : String) (now : Clock) (b p : List Char) (g : File)
    (hx : fs h = some g) :
    ∃ g2, (bufioWrite fs h now b p).1 h = some g2 ∧
      g2.content ++ (bufioWrite fs h now b p).2 = g.content ++ b ++ p := by
  dsimp only [bufioWrite]
  split_ifs with h1 h2 h3
  · have : b = [] := List.length_eq_zero.mp h2
    subst this
    simp [FS.append, hx]
  · simp [FS.append, hx]
  · simp [FS.append, hx]
  · simp [hx]

theorem bufioWrite_other (fs : FS) (h : String) (now : Clock) (b p : List Char) (q : String)
    (hq : q ≠ h) : (bufioWrite fs h now b p).1 q = fs q := by
  dsimp only [bufioWrite]
  split_ifs with h1 h2 h3 <;> cases hh : fs h <;> simp [FS.append, hh, hq]

/-! ### Write -/

theorem echo_fs (lo : LoggerObj) (w : World) (buf : List Char) : (lo.echo w buf).fs = w.fs := by
  unfold LoggerObj.echo; split <;> rfl

theorem echo_sweeps (lo : LoggerObj) (w : World) (buf : List Char) :
    (lo.echo w buf).sweeps = w.sweeps := by
  unfold LoggerObj.echo; split <;> rfl

theorem Write_stages (lo : LoggerObj) (w : World) (now : Clock) (buf : List Char)
    (hc : lo.config.LogFileClose = false) (hlen : 10 ≤ buf.length) :
    lo.Write w now buf = appended (sizeCut (dayCut (lo.opened w now buf) now buf) now buf) now buf := by
  have hl : ¬ buf.length < 10 := by omega
  unfold LoggerObj.Write appended sizeCut dayCut LoggerObj.opened
  simp only [hc, hl, Bool.false_eq_true, if_false]

theorem appended_spec (s : LoggerObj × World) (now : Clock) (buf : List Char) (f : File)
    (hf : s.1.file = some s.1.lpath) (hx : s.2.fs s.1.lpath = some f) :
    ∃ lo2 w2, appended s now buf = some (buf.length, lo2, w2) ∧
      lo2.size = s.1.size + (buf.length : Int) ∧ lo2.created = s.1.created ∧
      lo2.file = some s.1.lpath ∧ lo2.lpath = s.1.lpath ∧ lo2.config = s.1.config ∧
      lo2.lname = s.1.lname ∧ lo2.lsuffix = s.1.lsuffix ∧
      w2.sweeps = s.2.sweeps ∧ w2.stderr = s.2.stderr ∧
      (∃ g, w2.fs s.1.lpath = some g ∧ g.content ++ lo2.writer = f.content ++ s.1.writer ++ buf) ∧
      (∀ p, p ≠ s.1.lpath → w2.fs p = s.2.fs p) := by
  obtain ⟨g2, hg2, hcont⟩ := bufioWrite_at s.2.fs s.1.lpath now s.1.writer buf f hx
  refine ⟨{ s.1 with size := s.1.size + (buf.length : Int),
                     writer := (bufioWrite s.2.fs s.1.lpath now s.1.writer buf).2 },
          { s.2 with fs := (bufioWrite s.2.fs s.1.lpath now s.1.writer buf).1 }, ?_, rfl, rfl, hf,
          rfl, rfl, rfl, rfl, rfl, rfl, ⟨g2, hg2, hcont⟩,
          fun p hp => bufioWrite_other s.2.fs s.1.lpath now s.1.writer buf p hp⟩
  unfold appended
  simp only [hf]


theorem opened_of_open (lo : LoggerObj) (w : World) (now : Clock) (buf : List Char)
    (hf : lo.file = some lo.lpath) : lo.opened w now buf = (lo, lo.echo w buf) := by
  simp [LoggerObj.opened, hf]

/-- Everything `rotate` does on a logger with its file open. -/
theorem rotate_open_all (lo : LoggerObj) (w : World) (now : Clock) (f : File)
    (hc : lo.config.LogFileClose = false) (hf : lo.file = some lo.lpath)
    (hx : w.fs lo.lpath = some f) (hn : lo.namesOk) :
    (lo.rotate w now).1.config.LogFileClose = false ∧ (lo.rotate w now).1.namesOk ∧
    (lo.rotate w now).1.lpath = lo.lpath ∧
    (lo.rotate w now).1.file = some lo.lpath ∧
    (lo.rotate w now).1.size = 0 ∧ (lo.rotate w now).1.writer = [] ∧
    (lo.rotate w now).1.created = now.fmtDate '/' ∧
    (lo.rotate w now).1.config = lo.config ∧
    (lo.rotate w now).2.fs lo.lpath = some ⟨[], now⟩ ∧
    onDisk (lo.rotate w now).2.fs (lo.backupName w.fs now) = some (f.content ++ lo.writer) ∧
    (∀ p, p ≠ lo.lpath → p ≠ lo.backupName w.fs now → (lo.rotate w now).2.fs p = w.fs p) := by
  have hlo := rotate_open_lo lo w now f hc hf hx hn
  obtain ⟨g, hg, hgc⟩ := rotate_open_at_backup lo w now f hc hf hx hn
  refine ⟨?_, ?_, ?_, ?_, ?_, ?_, ?_, ?_, rotate_open_at_lpath lo w now f hc hf hx hn, ?_,
    rotate_open_elsewhere lo w now f hc hf hx hn⟩
  · rw [hlo]; exact hc
  · rw [hlo]; exact hn
  · rw [hlo]
  · rw [hlo]
  · rw [hlo]
  · rw [hlo]
  · rw [hlo]
  · rw [hlo]
  · rw [onDisk, hg]; simp [hgc]

/-- A write that cuts nothing: the stamp is the prefix of the record and the
size stays below the limit. -/
theorem Write_kept (lo : LoggerObj) (w : World) (now : Clock) (buf : List Char)
    (f : File) (hc : lo.config.LogFileClose = false)
    (hf : lo.file = some lo.lpath) (hx : w.fs lo.lpath = some f)
    (hlen : 10 ≤ buf.length) (hday : lo.created = String.mk (buf.take 10))
    (hs : lo.size + (buf.length : Int) < lo.config.MaxSize) :
    ∃ lo2 w2, lo.Write w now buf = some (buf.length, lo2, w2) ∧
      lo2.size = lo.size + buf.length ∧ lo2.file = some lo.lpath ∧
      lo2.created = lo.created ∧ w2.sweeps = w.sweeps ∧
      logical w2.fs lo.lpath lo2.writer = some (f.content ++ lo.writer ++ buf) ∧
      (∀ p, p ≠ lo.lpath → w2.fs p = w.fs p) := by
  have hst := Write_stages lo w now buf hc hlen
  rw [opened_of_open lo w now buf hf] at hst
  have hd : dayCut (lo, lo.echo w buf) now buf = (lo, lo.echo w buf) := by
    simp [dayCut, hday]
  rw [hd] at hst
  have hz : sizeCut (lo, lo.echo w buf) now buf = (lo, lo.echo w buf) := by
    have : ¬ lo.size + (buf.length : Int) ≥ lo.config.MaxSize := by omega
    simp only [sizeCut, this, if_false]
  rw [hz] at hst
  have hx2 : (lo.echo w buf).fs lo.lpath = some f := by rw [echo_fs]; exact hx
  obtain ⟨lo2, w2, hW, h1, h2, h3, -, -, -, -, h8, -, ⟨g2, hg2, hg2c⟩, hfr⟩ :=
    appended_spec (lo, lo.echo w buf) now buf f hf hx2
  refine ⟨lo2, w2, hst.trans hW, h1, h3, h2, ?_, ?_, ?_⟩
  · rw [h8]; exact echo_sweeps lo w buf
  · show logical w2.fs lo.lpath lo2.writer = _
    have : w2.fs lo.lpath = some g2 := hg2
    rw [logical, this]; simp only [Option.map_some']; exact congrArg some hg2c
  · intro p hp
    have := hfr p hp
    rw [this]; exact congrFun (echo_fs lo w buf) p

theorem rotate_closed_all (lo : LoggerObj) (w : World) (now : Clock)
    (hc : lo.config.LogFileClose = false) (hf : lo.file = none) :
    (lo.rotate w now).1.file = some lo.lpath ∧ (lo.rotate w now).1.writer = [] ∧
    (lo.rotate w now).2.fs = w.fs.create lo.lpath now ∧
    (lo.rotate w now).1.size =
      (match w.fs lo.lpath with
        | some f => (f.content.length : Int)
        | none => lo.size) ∧
    (lo.rotate w now).1.created =
      (match w.fs lo.lpath with
        | some f => f.modTime.fmtDate '/'
        | none => now.fmtDate '/') := by
  unfold LoggerObj.rotate
  simp only [hc, hf, Bool.false_eq_true, if_false, true_and]

/-- The invariant of a logger with file output on. -/
theorem inv_rotate (lo : LoggerObj) (w : World) (now : Clock)
    (hc : lo.config.LogFileClose = false) (hn : lo.namesOk) (hi : sizeInv (lo, w)) :
    (lo.rotate w now).1.config.LogFileClose = false ∧ (lo.rotate w now).1.namesOk ∧
      sizeInv (lo.rotate w now) ∧ (lo.rotate w now).1.file = some (lo.rotate w now).1.lpath := by
  obtain ⟨k1, k2, k3, k4⟩ := rotate_config lo w now
  have hfile := rotate_file lo w now hc
  refine ⟨by rw [k1]; exact hc, by unfold LoggerObj.namesOk at *; rw [k2, k3, k4]; exact hn,
    ?_, by rw [k2]; exact hfile⟩
  unfold sizeInv at hi ⊢
  cases hf : lo.file with
  | none =>
    simp only [hf] at hi
    obtain ⟨c1, c2, c3, c4, -⟩ := rotate_closed_all lo w now hc hf
    simp only [c1, k2, c2, c3, c4, true_and]
    cases hx : w.fs lo.lpath with
    | none => exact ⟨⟨[], now⟩, by simp [FS.create, hx], by simp [hi.1]⟩
    | some f => exact ⟨f, by simp [FS.create, hx], by simp⟩
  | some h =>
    simp only [hf] at hi
    obtain ⟨hh, f, hx, -⟩ := hi
    subst hh
    obtain ⟨-, -, a3, a4, a5, a6, -, -, a9, -, -⟩ := rotate_open_all lo w now f hc hf hx hn
    simp only [a4, a3, a5, a6, true_and]
    exact ⟨⟨[], now⟩, a9, by simp⟩


theorem loggerInv_rotate (lo : LoggerObj) (w : World) (now : Clock) (hi : loggerInv (lo, w)) :
    loggerInv (lo.rotate w now) ∧ (lo.rotate w now).1.file = some (lo.rotate w now).1.lpath := by
  obtain ⟨h1, h2, h3, h4⟩ := inv_rotate lo w now hi.1 hi.2.1 hi.2.2
  exact ⟨⟨h1, h2, h3⟩, h4⟩

theorem loggerInv_world (lo : LoggerObj) (w w2 : World) (h : w2.fs = w.fs)
    (hi : loggerInv (lo, w)) : loggerInv (lo, w2) := by
  unfold loggerInv sizeInv at *
  simp only [h]
  exact hi

theorem loggerInv_file (s : LoggerObj × World) (hi : loggerInv s) (h : s.1.file.isNone = false) :
    s.1.file = some s.1.lpath := by
  obtain ⟨-, -, h3⟩ := hi
  unfold sizeInv at h3
  cases hf : s.1.file with
  | none => simp [hf] at h
  | some p => simp only [hf] at h3; rw [h3.1]

theorem loggerInv_opened (lo : LoggerObj) (w : World) (now : Clock) (buf : List Char)
    (hi : loggerInv (lo, w)) :
    loggerInv (lo.opened w now buf) ∧
      (lo.opened w now buf).1.file = some (lo.opened w now buf).1.lpath := by
  have hi2 : loggerInv (lo, lo.echo w buf) := loggerInv_world lo w _ (echo_fs lo w buf) hi
  unfold LoggerObj.opened
  cases hf : lo.file.isNone with
  | true => simp only [if_true]; exact loggerInv_rotate lo _ now hi2
  | false =>
    simp only [Bool.false_eq_true, if_false]
    exact ⟨hi2, loggerInv_file (lo, lo.echo w buf) hi2 hf⟩

theorem loggerInv_dayCut (s : LoggerObj × World) (now : Clock) (buf : List Char)
    (hi : loggerInv s) (hf : s.1.file = some s.1.lpath) :
    loggerInv (dayCut s now buf) ∧
      (dayCut s now buf).1.file = some (dayCut s now buf).1.lpath := by
  unfold dayCut
  split
  · exact loggerInv_rotate s.1 _ now (loggerInv_world s.1 s.2 _ rfl hi)
  · exact ⟨hi, hf⟩

theorem loggerInv_sizeCut (s : LoggerObj × World) (now : Clock) (buf : List Char)
    (hi : loggerInv s) (hf : s.1.file = some s.1.lpath) :
    loggerInv (sizeCut s now buf) ∧
      (sizeCut s now buf).1.file = some (sizeCut s now buf).1.lpath := by
  unfold sizeCut
  split
  · exact loggerInv_rotate s.1 s.2 now hi
  · exact ⟨hi, hf⟩

theorem loggerInv_appended (s : LoggerObj × World) (now : Clock) (buf : List Char)
    (hi : loggerInv s) (hf : s.1.file = some s.1.lpath) :
    ∃ r, appended s now buf = some r ∧ r.1 = buf.length ∧ loggerInv r.2 ∧
      r.2.1.file = some r.2.1.lpath := by
  obtain ⟨hc, hn, h3⟩ := hi
  unfold sizeInv at h3
  simp only [hf] at h3
  obtain ⟨-, f, hx, hsz⟩ := h3
  obtain ⟨lo2, w2, hW, h1, -, h3, h4, h5, h6, h7, -, -, ⟨g, hg, hgc⟩, -⟩ :=
    appended_spec s now buf f hf hx
  refine ⟨(buf.length, lo2, w2), hW, rfl, ⟨by simp only [h5]; exact hc, ?_, ?_⟩,
    by simp only [h3, h4]⟩
  · unfold LoggerObj.namesOk at *
    simp only [h4, h6, h7]; exact hn
  · unfold sizeInv
    simp only [h3, h4, true_and]
    refine ⟨g, hg, ?_⟩
    have := congrArg List.length hgc
    simp only [List.length_append] at this
    rw [h1, hsz]
    omega

theorem loggerInv_Write (lo : LoggerObj) (w : World) (now : Clock) (buf : List Char)
    (hi : loggerInv (lo, w)) (hlen : 10 ≤ buf.length) :
    ∃ r, lo.Write w now buf = some r ∧ r.1 = buf.length ∧ loggerInv r.2 ∧
      r.2.1.file = some r.2.1.lpath := by
  rw [Write_stages lo w now buf hi.1 hlen]
  obtain ⟨i1, f1⟩ := loggerInv_opened lo w now buf hi
  obtain ⟨i2, f2⟩ := loggerInv_dayCut _ now buf i1 f1
  obtain ⟨i3, f3⟩ := loggerInv_sizeCut _ now buf i2 f2
  exact loggerInv_appended _ now buf i3 f3

theorem loggerInv_Flush (lo : LoggerObj) (w : World) (now : Clock) (hi : loggerInv (lo, w)) :
    loggerInv (lo.Flush w now) := by
  obtain ⟨hc, hn, h3⟩ := hi
  replace hc : lo.config.LogFileClose = false := hc
  replace hn : lo.namesOk := hn
  unfold LoggerObj.Flush LoggerObj.flushSync
  simp only [hc, Bool.false_eq_true, if_false]
  unfold sizeInv at h3
  cases hf : lo.file with
  | none => simp only [hf] at h3 ⊢; exact ⟨hc, hn, by unfold sizeInv; simp only [hf]; exact h3⟩
  | some h =>
    simp only [hf] at h3 ⊢
    obtain ⟨hh, f, hx, hsz⟩ := h3
    subst hh
    obtain ⟨g, hg, hgc⟩ := bufioFlush_at w.fs lo.lpath now lo.writer f hx
    refine ⟨hc, hn, ?_⟩
    unfold sizeInv
    simp only [hf, true_and]
    refine ⟨g, hg, ?_⟩
    have := congrArg List.length hgc
    simp only [List.length_append] at this
    rw [hsz]; simp only [List.length_nil]; omega

theorem namesOk_newLogger (lo : LoggerObj) : lo.newLogger.namesOk := by
  unfold LoggerObj.namesOk
  show lo.config.Path.length ≤
    (strings_TrimSuffix lo.config.Path (filepath_Ext lo.config.Path)).length +
      (if filepath_Ext lo.config.Path = "" then ".log" else filepath_Ext lo.config.Path).length
  generalize lo.config.Path = P
  generalize hE : filepath_Ext P = E
  have hlen : ∀ l : List Char, (String.mk l).length = l.length := fun _ => rfl
  have hP : P.data.length = P.length := rfl
  unfold strings_TrimSuffix
  cases hs : strings_HasSuffix P E with
  | true =>
    simp only [if_true, hlen, List.length_take]
    by_cases he : E = ""
    · subst he
      simp only [if_true, String.length, List.length_nil, List.length_cons]
      omega
    · simp only [he, if_false]
      omega
  | false =>
    simp only [Bool.false_eq_true, if_false]
    omega

theorem loggerInv_newLogger (c : Config) (w : World) (hc : c.LogFileClose = false) :
    loggerInv ((LoggerObj.zero c).newLogger, w) := by
  refine ⟨hc, namesOk_newLogger _, ?_⟩
  unfold sizeInv
  simp [LoggerObj.newLogger, LoggerObj.zero]

theorem loggerInv_NewLoggerObj (g g2 : Option LoggerObj) (c : Config) (lo : LoggerObj)
    (w : World) (hc : c.LogFileClose = false) (hnew : NewLoggerObj g c = some (lo, g2)) :
    loggerInv (lo, w) := by
  have hd : c.withDefaults.LogFileClose = false := by
    unfold Config.withDefaults
    simp only
    repeat' split
    all_goals exact hc
  have hlo : lo = (LoggerObj.zero c.withDefaults).newLogger := by
    unfold NewLoggerObj at hnew
    simp only [hc] at hnew
    split at hnew
    · simp at hnew
    · split at hnew <;> simp at hnew <;> exact hnew.1.symm
  rw [hlo]
  exact loggerInv_newLogger _ w hd

theorem loggerInv_run (ops : List Op) :
    ∀ s, loggerInv s → (∀ op ∈ ops, op.ok) → ∃ s2, run s ops = some s2 ∧ loggerInv s2 := by
  induction ops with
  | nil => intro s hi _; exact ⟨s, rfl, hi⟩
  | cons op ops ih =>
    intro s hi hok
    have hop := hok op (List.mem_cons_self _ _)
    have hrest : ∀ o ∈ ops, o.ok := fun o ho => hok o (List.mem_cons_of_mem _ ho)
    cases op with
    | write now buf =>
      obtain ⟨r, hW, -, hir, -⟩ := loggerInv_Write s.1 s.2 now buf hi hop
      obtain ⟨s2, hrun, hi2⟩ := ih r.2 hir hrest
      exact ⟨s2, by simp [run, step, hW, hrun], hi2⟩
    | rotate now =>
      obtain ⟨s2, hrun, hi2⟩ := ih _ (loggerInv_rotate s.1 s.2 now hi).1 hrest
      exact ⟨s2, by simp [run, step, hrun], hi2⟩
    | flush now =>
      obtain ⟨s2, hrun, hi2⟩ := ih _ (loggerInv_Flush s.1 s.2 now hi) hrest
      exact ⟨s2, by simp [run, step, hrun], hi2⟩

theorem rotate_created (lo : LoggerObj) (w : World) (now : Clock) (h : String)
    (hc : lo.config.LogFileClose = false) (hf : lo.file = some h) (hn : lo.namesOk) :
    (lo.rotate w now).1.created = now.fmtDate '/' := by
  have hne : ∀ fs, lo.backupName fs now ≠ lo.lpath := fun fs => backupName_ne_lpath lo fs now hn
  unfold LoggerObj.rotate
  simp only [hc, hf, Bool.false_eq_true, if_false]
  generalize bufioFlush w.fs h now lo.writer = fs1
  have hnone : (fs1.rename lo.lpath (lo.backupName fs1 now)) lo.lpath = none := by
    unfold FS.rename
    cases hx : fs1 lo.lpath with
    | none => exact hx
    | some g => simp [Ne.symm (hne fs1)]
  simp only [hnone]

theorem ready_rotate (lo : LoggerObj) (w : World) (now : Clock) (hr : lo.ready) :
    (lo.rotate w now).1.ready ∧ (lo.rotate w now).1.file = some (lo.rotate w now).1.lpath := by
  obtain ⟨hc, hn, _⟩ := hr
  obtain ⟨k1, k2, k3, k4⟩ := rotate_config lo w now
  have hfile := rotate_file lo w now hc
  refine ⟨⟨by rw [k1]; exact hc, ?_, Or.inr (by rw [k2]; exact hfile)⟩, by rw [k2]; exact hfile⟩
  unfold LoggerObj.namesOk at *
  rw [k2, k3, k4]; exact hn

theorem appended_some (s : LoggerObj × World) (now : Clock) (buf : List Char)
    (hr : s.1.ready) (hf : s.1.file = some s.1.lpath) :
    ∃ r, appended s now buf = some r ∧ r.2.1.ready ∧ r.2.1.file = some r.2.1.lpath ∧
      r.2.1.created = s.1.created ∧ r.2.2.sweeps = s.2.sweeps := by
  unfold appended
  simp only [hf]
  exact ⟨_, rfl, ⟨hr.1, hr.2.1, Or.inr rfl⟩, rfl, rfl, rfl⟩

theorem Write_created (lo : LoggerObj) (w : World) (now : Clock) (buf : List Char)
    (hr : lo.ready) (hlen : 10 ≤ buf.length) :
    ∃ r, lo.Write w now buf = some r ∧ r.2.1.ready ∧ r.2.1.file = some r.2.1.lpath ∧
      (r.2.1.created = String.mk (buf.take 10) ∨ r.2.1.created = now.fmtDate '/') ∧
      (lo.file = some lo.lpath → lo.created = String.mk (buf.take 10) →
        r.2.2.sweeps = w.sweeps) := by
  rw [Write_stages lo w now buf hr.1 hlen]
  -- a file is open
  have h1 : (lo.opened w now buf).1.ready ∧
      (lo.opened w now buf).1.file = some (lo.opened w now buf).1.lpath ∧
      (lo.file = some lo.lpath → lo.opened w now buf = (lo, lo.echo w buf)) := by
    rcases hr.2.2 with hf | hf
    · have he : lo.opened w now buf = lo.rotate (lo.echo w buf) now := by
        simp [LoggerObj.opened, hf]
      rw [he]
      obtain ⟨a, b⟩ := ready_rotate lo (lo.echo w buf) now hr
      exact ⟨a, b, fun h => by rw [hf] at h; simp at h⟩
    · rw [opened_of_open lo w now buf hf]
      exact ⟨hr, hf, fun _ => rfl⟩
  obtain ⟨r1, f1, e1⟩ := h1
  generalize lo.opened w now buf = s1 at *
  -- the cut by day
  have h2 : (dayCut s1 now buf).1.ready ∧
      (dayCut s1 now buf).1.file = some (dayCut s1 now buf).1.lpath ∧
      ((dayCut s1 now buf).1.created = String.mk (buf.take 10) ∨
        (dayCut s1 now buf).1.created = now.fmtDate '/') ∧
      (s1.1.created = String.mk (buf.take 10) → dayCut s1 now buf = s1) := by
    by_cases hd : s1.1.created = String.mk (buf.take 10)
    · have he : dayCut s1 now buf = s1 := by simp [dayCut, hd]
      rw [he]
      exact ⟨r1, f1, Or.inl hd, fun _ => rfl⟩
    · have he : dayCut s1 now buf = s1.1.rotate { s1.2 with sweeps := s1.2.sweeps + 1 } now := by
        simp [dayCut, hd]
      rw [he]
      obtain ⟨a, b⟩ := ready_rotate s1.1 { s1.2 with sweeps := s1.2.sweeps + 1 } now r1
      exact ⟨a, b, Or.inr (rotate_created s1.1 _ now _ r1.1 f1 r1.2.1), fun h => absurd h hd⟩
  obtain ⟨r2, f2, c2, e2⟩ := h2
  generalize dayCut s1 now buf = s2 at *
  -- the cut by size
  have h3 : (sizeCut s2 now buf).1.ready ∧
      (sizeCut s2 now buf).1.file = some (sizeCut s2 now buf).1.lpath ∧
      ((sizeCut s2 now buf).1.created = String.mk (buf.take 10) ∨
        (sizeCut s2 now buf).1.created = now.fmtDate '/') ∧
      (sizeCut s2 now buf).2.sweeps = s2.2.sweeps := by
    unfold sizeCut
    split
    · obtain ⟨a, b⟩ := ready_rotate s2.1 s2.2 now r2
      exact ⟨a, b, Or.inr (rotate_created s2.1 _ now _ r2.1 f2 r2.2.1), rotate_sweeps _ _ _⟩
    · exact ⟨r2, f2, c2, rfl⟩
  obtain ⟨r3, f3, c3, w3⟩ := h3
  generalize sizeCut s2 now buf = s3 at *
  obtain ⟨r, hW, ra, rb, rc, rd⟩ := appended_some s3 now buf r3 f3
  refine ⟨r, hW, ra, rb, by rw [rc]; exact c3, ?_⟩
  intro hf hd
  rw [rd, w3]
  have := e1 hf
  subst this
  have := e2 hd
  subst this
  exact echo_sweeps lo w buf

/-- The state in which `Write` examines the record. -/
theorem opened_seen (lo : LoggerObj) (w : World) (now : Clock) (buf : List Char)
    (hr : lo.ready) :
    (lo.opened w now buf).1.ready ∧
    (lo.opened w now buf).1.file = some (lo.opened w now buf).1.lpath ∧
    (lo.opened w now buf).1.created = lo.stampSeen w now ∧
    (lo.opened w now buf).1.size = lo.sizeSeen w ∧
    (lo.opened w now buf).2.sweeps = w.sweeps ∧
    (lo.opened w now buf).1.config = lo.config := by
  rcases hr.2.2 with hf | hf
  · have he : lo.opened w now buf = lo.rotate (lo.echo w buf) now := by
      simp [LoggerObj.opened, hf]
    rw [he]
    obtain ⟨a, b⟩ := ready_rotate lo (lo.echo w buf) now hr
    obtain ⟨-, -, -, c4, c5⟩ := rotate_closed_all lo (lo.echo w buf) now hr.1 hf
    refine ⟨a, b, ?_, ?_, ?_, (rotate_config lo (lo.echo w buf) now).1⟩
    · rw [c5, echo_fs]
      cases hx : w.fs lo.lpath <;> simp [LoggerObj.stampSeen, hf, hx]
    · rw [c4, echo_fs]
      cases hx : w.fs lo.lpath <;> simp [LoggerObj.sizeSeen, hf, hx]
    · rw [rotate_sweeps, echo_sweeps]
  · rw [opened_of_open lo w now buf hf]
    exact ⟨hr, hf, by simp [LoggerObj.stampSeen, hf], by simp [LoggerObj.sizeSeen, hf],
      echo_sweeps lo w buf, rfl⟩

theorem sizeCut_facts (s : LoggerObj × World) (now : Clock) (buf : List Char)
    (hr : s.1.ready) (hf : s.1.file = some s.1.lpath) :
    (sizeCut s now buf).1.ready ∧
    (sizeCut s now buf).1.file = some (sizeCut s now buf).1.lpath ∧
    ((sizeCut s now buf).1.created = s.1.created ∨
      (sizeCut s now buf).1.created = now.fmtDate '/') ∧
    (sizeCut s now buf).2.sweeps = s.2.sweeps := by
  unfold sizeCut
  split
  · obtain ⟨a, b⟩ := ready_rotate s.1 s.2 now hr
    exact ⟨a, b, Or.inr (rotate_created s.1 _ now _ hr.1 hf hr.2.1), rotate_sweeps _ _ _⟩
  · exact ⟨hr, hf, Or.inl rfl, rfl⟩

/-! ## Lemmas: the sweep -/

theorem walkList_mem_of (p : String) (x : String × FileInfo) :
    ∀ (cs : List Entry) (c : Entry), c ∈ cs → x ∈ walk (filepath_Join p c.name) c → x ∈ walkList p cs := by
  intro cs
  induction cs with
  | nil => intro c hc; simp at hc
  | cons d ds ih =>
    intro c hc hx
    simp only [walkList, List.mem_append]
    rcases List.mem_cons.mp hc with h | h
    · subst h; exact Or.inl hx
    · exact Or.inr (ih c h hx)

theorem walk_of_fileAt (p : String) (e : Entry) (q n : String) (t : Int)
    (h : FileAt p e q n t) : (q, (⟨n, false, t⟩ : FileInfo)) ∈ walk p e := by
  induction h with
  | here p n t => simp [walk]
  | inside p dn dt cs c q n t hc _ ih =>
    simp only [walk, List.mem_cons]
    exact Or.inr (walkList_mem_of p _ cs c hc ih)

mutual
theorem fileAt_of_walk (e : Entry) (p q n : String) (t : Int)
    (h : (q, (⟨n, false, t⟩ : FileInfo)) ∈ walk p e) : FileAt p e q n t := by
  match e with
  | .file m u =>
    simp only [walk, List.mem_singleton, Prod.mk.injEq, FileInfo.mk.injEq, true_and] at h
    obtain ⟨h1, h2, h3⟩ := h
    subst h1 h2 h3
    exact FileAt.here _ _ _
  | .dir m u cs =>
    simp only [walk, List.mem_cons, Prod.mk.injEq, FileInfo.mk.injEq] at h
    rcases h with h | h
    · simp at h
    · obtain ⟨c, hc, hf⟩ := fileAt_of_walkList cs p q n t h
      exact FileAt.inside p m u cs c q n t hc hf
theorem fileAt_of_walkList (cs : List Entry) (p q n : String) (t : Int)
    (h : (q, (⟨n, false, t⟩ : FileInfo)) ∈ walkList p cs) :
    ∃ c ∈ cs, FileAt (filepath_Join p c.name) c q n t := by
  match cs with
  | [] => simp [walkList] at h
  | c :: ds =>
    simp only [walkList, List.mem_append] at h
    rcases h with h | h
    · exact ⟨c, List.mem_cons_self _ _, fileAt_of_walk c _ q n t h⟩
    · obtain ⟨d, hd, hf⟩ := fileAt_of_walkList ds p q n t h
      exact ⟨d, List.mem_cons_of_mem _ hd, hf⟩
end

theorem delete_mem_iff (lo : LoggerObj) (now : Int) (root : Entry) (q : String)
    (h0 : 0 ≤ lo.config.MaxStorageDay) :
    q ∈ lo.delete now (some root) ↔
      ∃ n t, FileAt (filepath_Dir lo.lpath) root q n t ∧ lo.lsuffix.data <:+ n.data ∧
        t < now - lo.config.MaxStorageDay * dayNanos := by
  have hneg : ¬ lo.config.MaxStorageDay < 0 := by omega
  unfold LoggerObj.delete
  simp only [hneg, if_false, List.mem_map, List.mem_filter, LoggerObj.removes, Bool.and_eq_true,
    Bool.not_eq_true', decide_eq_true_eq, strings_HasSuffix, List.isSuffixOf_iff_suffix]
  constructor
  · rintro ⟨⟨q2, ⟨nm, d, t⟩⟩, ⟨hw, ⟨hd, ht⟩, hs⟩, rfl⟩
    simp only at hd ht hs
    subst hd
    exact ⟨nm, t, fileAt_of_walk root _ _ nm t hw, hs, ht⟩
  · rintro ⟨n, t, hf, hs, ht⟩
    exact ⟨(q, ⟨n, false, t⟩), ⟨walk_of_fileAt _ root q n t hf, ⟨rfl, ht⟩, hs⟩, rfl⟩

/-! ## The claims -/

/-- C1. Size rotation in `Write`. With file output on, the file open and on
disk, and a record whose ten-byte day stamp equals the stored creation day:
when `size + len(record) >= MaxSize`, `Write` succeeds, the bytes written
before (on disk and buffered) are exactly the content of the backup file, whose
name is one of the date-suffixed candidates, the file at the log path holds
exactly the record, the size is `len(record)`, and no other file changes; when
`size + len(record) < MaxSize` nothing is rotated and the record is appended to
the current file. -/
theorem Write_size_rotation (lo : LoggerObj) (w : World) (now : Clock) (buf : List Char)
    (f : File) (hc : lo.config.LogFileClose = false) (hn : lo.namesOk)
    (hf : lo.file = some lo.lpath) (hx : w.fs lo.lpath = some f)
    (hlen : 10 ≤ buf.length) (hday : lo.created = String.mk (buf.take 10)) :
    (lo.size + (buf.length : Int) ≥ lo.config.MaxSize →
      ∃ lo2 w2, lo.Write w now buf = some (buf.length, lo2, w2) ∧
        lo2.size = buf.length ∧ lo2.file = some lo.lpath ∧
        lo.backupName w.fs now ∈ lo.candidates now ∧
        onDisk w2.fs (lo.backupName w.fs now) = some (f.content ++ lo.writer) ∧
        logical w2.fs lo.lpath lo2.writer = some buf ∧
        (∀ p, p ≠ lo.lpath → p ≠ lo.backupName w.fs now → w2.fs p = w.fs p)) ∧
    (lo.size + (buf.length : Int) < lo.config.MaxSize →
      ∃ lo2 w2, lo.Write w now buf = some (buf.length, lo2, w2) ∧
        lo2.size = lo.size + buf.length ∧ lo2.file = some lo.lpath ∧
        lo2.created = lo.created ∧ w2.sweeps = w.sweeps ∧
        logical w2.fs lo.lpath lo2.writer = some (f.content ++ lo.writer ++ buf) ∧
        (∀ p, p ≠ lo.lpath → w2.fs p = w.fs p)) := by
  constructor
  · intro hs
    have hst := Write_stages lo w now buf hc hlen
    rw [opened_of_open lo w now buf hf] at hst
    have hd : dayCut (lo, lo.echo w buf) now buf = (lo, lo.echo w buf) := by
      simp [dayCut, hday]
    rw [hd] at hst
    have hz : sizeCut (lo, lo.echo w buf) now buf = lo.rotate (lo.echo w buf) now := by
      simp [sizeCut, hs]
    rw [hz] at hst
    have hx2 : (lo.echo w buf).fs lo.lpath = some f := by rw [echo_fs]; exact hx
    obtain ⟨-, -, a3, a4, a5, a6, -, -, a9, a10, a11⟩ :=
      rotate_open_all lo (lo.echo w buf) now f hc hf hx2 hn
    rw [echo_fs] at a10 a11
    have hne := backupName_ne_lpath lo w.fs now hn
    obtain ⟨lo2, w2, hW, h1, -, h3, -, -, -, -, -, -, ⟨g2, hg2, hg2c⟩, hfr⟩ :=
      appended_spec (lo.rotate (lo.echo w buf) now) now buf ⟨[], now⟩
        (by rw [a3]; exact a4) (by rw [a3]; exact a9)
    rw [a3] at h3 hg2 hfr
    refine ⟨lo2, w2, hst.trans hW, ?_, h3, backupName_mem lo w.fs now, ?_, ?_, ?_⟩
    · rw [h1, a5]; simp
    · rw [onDisk, hfr _ hne]; exact a10
    · rw [logical, hg2]; simp only [Option.map_some', hg2c, a6]; simp
    · intro p hp1 hp2
      rw [hfr p hp1, a11 p hp1 hp2]
  · intro hs
    exact Write_kept lo w now buf f hc hf hx hlen hday hs

/-- C1 at the example logger: a record of 101 bytes on a 24-byte file with
`MaxSize = 100` goes to a fresh file, and the size is 101. -/
theorem Write_size_rotation_witness :
    ∃ lo2 w2, exLogger.Write exWorld exClock exLong = some (exLong.length, lo2, w2) ∧
      lo2.size = exLong.length ∧
      onDisk w2.fs (exLogger.backupName exWorld.fs exClock) =
        some (exFile.content ++ exLogger.writer) ∧
      logical w2.fs exLogger.lpath lo2.writer = some exLong := by
  obtain ⟨lo2, w2, h1, h2, -, -, h5, h6, -⟩ :=
    (Write_size_rotation exLogger exWorld exClock exLong exFile (by decide) (by decide)
      (by decide) (by decide) (by decide) (by decide)).1 (by decide)
  exact ⟨lo2, w2, h1, h2, h5, h6⟩

/-- C2. Day rotation in `Write`. With file output on and the file open and on
disk: for a record whose first ten bytes differ from the creation-day stamp,
`Write` succeeds, starts one sweep, rotates before it appends (it is the size
check and the append applied to the rotated state, in which the backup holds
the old bytes and the log path an empty file), the file at the log path ends
up holding exactly the record, and every other file is an untouched file, the
old content or an empty file; when the record is shorter than `MaxSize` the
backup holds the old bytes at the end and nothing else changes. When the stamp
is equal and the size limit is not reached, nothing is rotated. -/
theorem Write_day_rotation (lo : LoggerObj) (w : World) (now : Clock) (buf : List Char)
    (f : File) (hc : lo.config.LogFileClose = false) (hn : lo.namesOk)
    (hf : lo.file = some lo.lpath) (hx : w.fs lo.lpath = some f)
    (hlen : 10 ≤ buf.length) :
    (lo.created ≠ String.mk (buf.take 10) →
      ∃ lo2 w2, lo.Write w now buf = some (buf.length, lo2, w2) ∧
        w2.sweeps = w.sweeps + 1 ∧ lo2.size = buf.length ∧ lo2.file = some lo.lpath ∧
        logical w2.fs lo.lpath lo2.writer = some buf ∧
        (∀ p g, p ≠ lo.lpath → w2.fs p = some g →
          w.fs p = some g ∨ g.content = f.content ++ lo.writer ∨ g.content = []) ∧
        ((buf.length : Int) < lo.config.MaxSize →
          onDisk w2.fs (lo.backupName w.fs now) = some (f.content ++ lo.writer) ∧
          ∀ p, p ≠ lo.lpath → p ≠ lo.backupName w.fs now → w2.fs p = w.fs p) ∧
        (∃ s : LoggerObj × World,
          s = lo.rotate { lo.echo w buf with sweeps := (lo.echo w buf).sweeps + 1 } now ∧
          lo.Write w now buf = appended (sizeCut s now buf) now buf ∧
          onDisk s.2.fs (lo.backupName w.fs now) = some (f.content ++ lo.writer) ∧
          s.2.fs lo.lpath = some ⟨[], now⟩ ∧ s.1.writer = [])) ∧
    (lo.created = String.mk (buf.take 10) → lo.size + (buf.length : Int) < lo.config.MaxSize →
      ∃ lo2 w2, lo.Write w now buf = some (buf.length, lo2, w2) ∧
        w2.sweeps = w.sweeps ∧ lo2.created = lo.created ∧ lo2.size = lo.size + buf.length ∧
        logical w2.fs lo.lpath lo2.writer = some (f.content ++ lo.writer ++ buf) ∧
        (∀ p, p ≠ lo.lpath → w2.fs p = w.fs p)) := by
  constructor
  · intro hday
    have hst := Write_stages lo w now buf hc hlen
    rw [opened_of_open lo w now buf hf] at hst
    have hd : dayCut (lo, lo.echo w buf) now buf =
        lo.rotate { lo.echo w buf with sweeps := (lo.echo w buf).sweeps + 1 } now := by
      simp [dayCut, hday]
    rw [hd] at hst
    generalize hw1 : ({ lo.echo w buf with sweeps := (lo.echo w buf).sweeps + 1 } : World) = w1
      at hst
    have hw1fs : w1.fs = w.fs := by rw [← hw1]; exact echo_fs lo w buf
    have hw1sw : w1.sweeps = w.sweeps + 1 := by rw [← hw1]; simp [echo_sweeps]
    have hx1 : w1.fs lo.lpath = some f := by rw [hw1fs]; exact hx
    obtain ⟨a1, a2, a3, a4, a5, a6, a7, a8, a9, a10, a11⟩ :=
      rotate_open_all lo w1 now f hc hf hx1 hn
    rw [hw1fs] at a10 a11
    have hsw := rotate_sweeps lo w1 now
    generalize hs : lo.rotate w1 now = s at *
    have hne := backupName_ne_lpath lo w.fs now hn
    by_cases hsz : (buf.length : Int) < lo.config.MaxSize
    · have hz : sizeCut s now buf = s := by
        have : ¬ s.1.size + (buf.length : Int) ≥ s.1.config.MaxSize := by
          rw [a5, a8]; omega
        simp only [sizeCut, this, if_false]
      obtain ⟨lo2, w2, hW, h1, -, h3, -, -, -, -, h8, -, ⟨g2, hg2, hg2c⟩, hfr⟩ :=
        appended_spec s now buf ⟨[], now⟩ (by rw [a3]; exact a4) (by rw [a3]; exact a9)
      rw [a3] at h3 hg2 hfr
      have hbk : onDisk w2.fs (lo.backupName w.fs now) = some (f.content ++ lo.writer) := by
        rw [onDisk, hfr _ hne]; exact a10
      have hels : ∀ p, p ≠ lo.lpath → p ≠ lo.backupName w.fs now → w2.fs p = w.fs p := by
        intro p hp1 hp2; rw [hfr p hp1, a11 p hp1 hp2]
      refine ⟨lo2, w2, ?_, ?_, ?_, h3, ?_, ?_, fun _ => ⟨hbk, hels⟩, s, rfl, hst, a10, a9, a6⟩
      · rw [hst, hz, hW]
      · rw [h8, hsw, hw1sw]
      · rw [h1, a5]; simp
      · rw [logical, hg2]; simp only [Option.map_some', hg2c, a6]; simp
      · intro p g hp hg
        by_cases hpb : p = lo.backupName w.fs now
        · right; left
          subst hpb
          rw [onDisk, hg] at hbk
          simpa using hbk
        · left; rw [← hels p hp hpb]; exact hg
    · have hz : sizeCut s now buf = s.1.rotate s.2 now := by
        have : s.1.size + (buf.length : Int) ≥ s.1.config.MaxSize := by
          rw [a5, a8]; omega
        simp only [sizeCut, this, if_true]
      have hx2 : s.2.fs s.1.lpath = some ⟨[], now⟩ := by rw [a3]; exact a9
      obtain ⟨b1, b2, b3, b4, b5, b6, b7, b8, b9, b10, b11⟩ :=
        rotate_open_all s.1 s.2 now ⟨[], now⟩ a1 (by rw [a3]; exact a4) hx2 a2
      have hsw2 := rotate_sweeps s.1 s.2 now
      generalize hs2 : s.1.rotate s.2 now = s2 at *
      rw [a3] at b3 b4 b9 b11
      simp only [a6, List.append_nil] at b10
      obtain ⟨lo2, w2, hW, h1, -, h3, -, -, -, -, h8, -, ⟨g2, hg2, hg2c⟩, hfr⟩ :=
        appended_spec s2 now buf ⟨[], now⟩ (by rw [b3]; exact b4) (by rw [b3]; exact b9)
      rw [b3] at h3 hg2 hfr
      refine ⟨lo2, w2, ?_, ?_, ?_, h3, ?_, ?_, fun h => absurd h hsz, s, rfl, hst, a10, a9, a6⟩
      · rw [hst, hz, hW]
      · rw [h8, hsw2, hsw, hw1sw]
      · rw [h1, b5]; simp
      · rw [logical, hg2]; simp only [Option.map_some', hg2c, b6]; simp
      · intro p g hp hg
        rw [hfr p hp] at hg
        by_cases hpb2 : p = s.1.backupName s.2.fs now
        · right; right
          subst hpb2
          rw [onDisk, hg] at b10
          simpa using b10
        · rw [b11 p hp hpb2] at hg
          by_cases hpb : p = lo.backupName w.fs now
          · right; left
            subst hpb
            rw [onDisk, hg] at a10
            simpa using a10
          · left; rw [← a11 p hp hpb]; exact hg
  · intro hday hsz
    obtain ⟨lo2, w2, hW, h1, h2, h3, h4, h5, h6⟩ :=
      Write_kept lo w now buf f hc hf hx hlen hday hsz
    exact ⟨lo2, w2, hW, h4, h3, h1, h5, h6⟩

/-- C2 at the example logger: a record of 2021/05/13 on the file of
2021/05/12 starts a sweep and lands alone in the fresh file, although
`24 + 26 < 100`. -/
theorem Write_day_rotation_witness :
    exLogger.size + (exTomorrow.length : Int) < exLogger.config.MaxSize ∧
    ∃ lo2 w2, exLogger.Write exWorld exNext exTomorrow = some (exTomorrow.length, lo2, w2) ∧
      w2.sweeps = exWorld.sweeps + 1 ∧
      logical w2.fs exLogger.lpath lo2.writer = some exTomorrow := by
  obtain ⟨lo2, w2, h1, h2, -, -, h5, -⟩ :=
    (Write_day_rotation exLogger exWorld exNext exTomorrow exFile (by decide) (by decide)
      (by decide) (by decide) (by decide)).1 (by decide)
  exact ⟨by decide, lo2, w2, h1, h2, h5⟩

/-- C3, counterexample. A payload that ends in a newline gets a second one on
the `println` path, and a payload that ends in two newlines keeps both on the
`printf` path: neither record ends in exactly one newline. -/
theorem record_newline_counterexample :
    ¬ endsInOneNewline (exLogger.printlnRecord exClock none exTemp INFO ["hi\n"]) ∧
    ¬ endsInOneNewline (exLogger.printfRecord exClock none exTemp INFO "hi\n\n") := by
  decide

/-- C3, amended. The record handed to `Write` always ends in a newline. On the
`println` path it ends in exactly one newline if and only if the joined
operands do not themselves end in a newline; on the `printf` path if and only
if the formatted text does not end in two newlines. -/
theorem record_trailing_newline (lo : LoggerObj) (now : Clock)
    (caller : Option (String × Nat)) (temp : Nat → Char) (lv : logLevel) (args : List String)
    (formatted : String) :
    (lo.printlnRecord now caller temp lv args).getLast? = some '\n' ∧
    (lo.printfRecord now caller temp lv formatted).getLast? = some '\n' ∧
    (endsInOneNewline (lo.printlnRecord now caller temp lv args) ↔
      (joinOperands args).getLast? ≠ some '\n') ∧
    (endsInOneNewline (lo.printfRecord now caller temp lv formatted) ↔
      ¬ (formatted.data.getLast? = some '\n' ∧
          formatted.data.dropLast.getLast? = some '\n')) :=
  ⟨(println_one_newline_iff lo now caller temp lv args).1,
   (printf_one_newline_iff lo now caller temp lv formatted).1,
   (println_one_newline_iff lo now caller temp lv args).2,
   (printf_one_newline_iff lo now caller temp lv formatted).2⟩

/-- C4, counterexample. The header of a DEBUG record is not the timestamp
followed by the bare label `[DEBUG]`. -/
theorem header_label_counterexample :
    (exLogger.header exClock none ⟨exTemp, []⟩ DEBUG).bytes ≠
      "2021/05/12 16:52:07 [DEBUG] ".data := by
  decide

/-- C4, amended. For a level in DEBUG..FATAL, a clock reading with a year of
at most 9999 and call-site capture off, the header is the timestamp
`YYYY/MM/DD HH:MM:SS`, a space, the label of the level wrapped in the colour
sequence `ESC[1;<colour>;40m` ... `ESC[0m`, and a space; its first ten bytes
are the date, and the digit fields of the timestamp denote the clock fields. -/
theorem header_layout (lo : LoggerObj) (now : Clock) (caller : Option (String × Nat))
    (temp : Nat → Char) (lv : Int) (h0 : 0 ≤ lv) (h4 : lv ≤ 4) (hv : now.valid)
    (hc : lo.config.CallInfo = false) :
    (lo.header now caller ⟨temp, []⟩ lv).bytes =
      now.stamp ++ [' '] ++
        ("\x1b[1;" ++ levelColor lv ++ ";40m" ++ levelTag lv ++ "\x1b[0m").data ++ [' '] ∧
    (lo.header now caller ⟨temp, []⟩ lv).bytes.take 10 = (now.fmtDate '/').data ∧
    now.stamp.length = 19 ∧
    decimalValue (now.stamp.take 4) = now.year ∧
    decimalValue ((now.stamp.drop 5).take 2) = now.month ∧
    decimalValue ((now.stamp.drop 8).take 2) = now.day ∧
    decimalValue ((now.stamp.drop 11).take 2) = now.hour ∧
    decimalValue ((now.stamp.drop 14).take 2) = now.minute ∧
    decimalValue ((now.stamp.drop 17).take 2) = now.second ∧
    now.stamp.get? 4 = some '/' ∧ now.stamp.get? 7 = some '/' ∧ now.stamp.get? 10 = some ' ' ∧
    now.stamp.get? 13 = some ':' ∧ now.stamp.get? 16 = some ':' := by
  obtain ⟨v1, v2, v3, v4, v5, v6, v7, v8⟩ := hv
  have e1 : fmtNum 4 now.year = fixedDigits 4 now.year := by
    unfold fmtNum; rw [if_pos (by omega)]
  have e2 : fmtNum 2 now.month = fixedDigits 2 now.month := by
    unfold fmtNum; rw [if_pos (by omega)]
  have e3 : fmtNum 2 now.day = fixedDigits 2 now.day := by
    unfold fmtNum; rw [if_pos (by omega)]
  have e4 : fmtNum 2 now.hour = fixedDigits 2 now.hour := by
    unfold fmtNum; rw [if_pos (by omega)]
  have e5 : fmtNum 2 now.minute = fixedDigits 2 now.minute := by
    unfold fmtNum; rw [if_pos (by omega)]
  have e6 : fmtNum 2 now.second = fixedDigits 2 now.second := by
    unfold fmtNum; rw [if_pos (by omega)]
  have hb := header_bytes_plain lo now caller ⟨temp, []⟩ lv h0 h4 hc
  have hs := Str_eq lv h0 h4
  have d1 := decimalValue_fixed4 now.year (by omega)
  have d2 := decimalValue_fixed2 now.month (by omega)
  have d3 := decimalValue_fixed2 now.day (by omega)
  have d4 := decimalValue_fixed2 now.hour (by omega)
  have d5 := decimalValue_fixed2 now.minute (by omega)
  have d6 := decimalValue_fixed2 now.second (by omega)
  have hstamp : now.stamp =
      fixedDigits 4 now.year ++ ['/'] ++ fixedDigits 2 now.month ++ ['/'] ++
        fixedDigits 2 now.day ++ [' '] ++ fixedDigits 2 now.hour ++ [':'] ++
        fixedDigits 2 now.minute ++ [':'] ++ fixedDigits 2 now.second := by
    simp only [Clock.stamp, Clock.fmtDate, e1, e2, e3, e4, e5, e6]
  have hdate : (now.fmtDate '/').data =
      fixedDigits 4 now.year ++ ['/'] ++ fixedDigits 2 now.month ++ ['/'] ++
        fixedDigits 2 now.day := by
    simp only [Clock.fmtDate, e1, e2, e3]
  refine ⟨?_, ?_, ?_, ?_, ?_, ?_, ?_, ?_, ?_, ?_, ?_, ?_, ?_, ?_⟩
  · rw [hb, hstamp, hs]; simp
  · rw [hb, hdate]; simp [fixedDigits]
  · rw [hstamp]; simp [fixedDigits]
  · rw [hstamp]; simpa [fixedDigits] using d1
  · rw [hstamp]; simpa [fixedDigits] using d2
  · rw [hstamp]; simpa [fixedDigits] using d3
  · rw [hstamp]; simpa [fixedDigits] using d4
  · rw [hstamp]; simpa [fixedDigits] using d5
  · rw [hstamp]; simpa [fixedDigits] using d6
  · rw [hstamp]; simp [fixedDigits]
  · rw [hstamp]; simp [fixedDigits]
  · rw [hstamp]; simp [fixedDigits]
  · rw [hstamp]; simp [fixedDigits]
  · rw [hstamp]; simp [fixedDigits]

/-- C4, amended, at the example clock: the header of an INFO record. -/
theorem header_layout_witness :
    (exLogger.header exClock none ⟨exTemp, []⟩ 1).bytes =
      exClock.stamp ++ [' '] ++
        ("\x1b[1;" ++ levelColor 1 ++ ";40m" ++ levelTag 1 ++ "\x1b[0m").data ++ [' '] :=
  (header_layout exLogger exClock none exTemp 1 (by decide) (by decide) (by decide)
    (by decide)).1

/-- C5. Backup naming. There are 1001 candidate names, the dated name and then
the names numbered 0 to 999. Whatever files exist, if a candidate is unused the
name `rotate` renames to is the first unused candidate, and it names no
existing file. Hence on a logger with its file open, if a candidate is still
unused after a first rotation, a second rotation on the same calendar day
chooses a different name, leaves the first backup as it is and puts the
(empty) second file under the second name. -/
theorem backupName_first_unused (lo : LoggerObj) (now : Clock) :
    (lo.candidates now).length = 1001 ∧
    lo.candidates now =
      (lo.lname ++ ("_" ++ now.fmtDate '-') ++ lo.lsuffix) ::
        (List.range 1000).map
          (fun i => lo.lname ++ ("_" ++ now.fmtDate '-' ++ "_" ++ Nat.repr i) ++ lo.lsuffix) ∧
    (∀ fs : FS, (∃ c ∈ lo.candidates now, fs.found c = false) →
      (lo.candidates now).find? (fun c => !fs.found c) = some (lo.backupName fs now) ∧
      fs.found (lo.backupName fs now) = false) ∧
    (∀ (w : World) (f : File) (now2 : Clock),
      lo.config.LogFileClose = false → lo.namesOk → lo.file = some lo.lpath →
      w.fs lo.lpath = some f → now2.fmtDate '-' = now.fmtDate '-' →
      (∃ c ∈ lo.candidates now, (lo.rotate w now).2.fs.found c = false) →
      (lo.rotate w now).1.backupName (lo.rotate w now).2.fs now2 ≠ lo.backupName w.fs now ∧
      onDisk (lo.rotate w now).2.fs (lo.backupName w.fs now) = some (f.content ++ lo.writer) ∧
      onDisk ((lo.rotate w now).1.rotate (lo.rotate w now).2 now2).2.fs
        (lo.backupName w.fs now) = some (f.content ++ lo.writer) ∧
      onDisk ((lo.rotate w now).1.rotate (lo.rotate w now).2 now2).2.fs
        ((lo.rotate w now).1.backupName (lo.rotate w now).2.fs now2) = some []) := by
  refine ⟨candidates_length lo now, rfl,
    fun fs h => ⟨backupName_find lo fs now h, backupName_unused lo fs now h⟩, ?_⟩
  intro w f now2 hc hn hf hx hd hu
  obtain ⟨a1, a2, a3, a4, a5, a6, a7, a8, a9, a10, a11⟩ := rotate_open_all lo w now f hc hf hx hn
  obtain ⟨-, -, k3, k4⟩ := rotate_config lo w now
  generalize hs : lo.rotate w now = s at *
  have hdated : s.1.dated now2 = lo.dated now := by
    simp only [LoggerObj.dated, k3, k4, hd]
  have hnumbered : s.1.numbered now2 = lo.numbered now := by
    funext i
    simp only [LoggerObj.numbered, k3, k4, hd]
  have hcand : s.1.candidates now2 = lo.candidates now := by
    unfold LoggerObj.candidates
    rw [hdated, hnumbered]
  have hu2 : ∃ c ∈ s.1.candidates now2, s.2.fs.found c = false := by rw [hcand]; exact hu
  have hun := backupName_unused s.1 s.2.fs now2 hu2
  have hfound : s.2.fs.found (lo.backupName w.fs now) = true := by
    unfold onDisk at a10
    unfold FS.found
    cases hb : s.2.fs (lo.backupName w.fs now) with
    | none => rw [hb] at a10; simp at a10
    | some g => rfl
  have hne12 : s.1.backupName s.2.fs now2 ≠ lo.backupName w.fs now := by
    intro h; rw [h, hfound] at hun; simp at hun
  have hx2 : s.2.fs s.1.lpath = some ⟨[], now⟩ := by rw [a3]; exact a9
  obtain ⟨-, -, -, -, -, -, -, -, -, b10, b11⟩ :=
    rotate_open_all s.1 s.2 now2 ⟨[], now⟩ a1 (by rw [a3]; exact a4) hx2 a2
  rw [a3] at b11
  refine ⟨hne12, a10, ?_, ?_⟩
  · unfold onDisk at a10 ⊢
    rw [b11 _ (backupName_ne_lpath lo w.fs now hn) (Ne.symm hne12)]
    exact a10
  · rw [b10, a6]; rfl

/-- C5 at the example logger: no backup exists yet, so the dated name is
chosen, and it is unused. -/
theorem backupName_first_unused_witness :
    (exLogger.candidates exClock).find? (fun c => !exWorld.fs.found c) =
        some (exLogger.backupName exWorld.fs exClock) ∧
      exWorld.fs.found (exLogger.backupName exWorld.fs exClock) = false :=
  (backupName_first_unused exLogger exClock).2.2.1 exWorld.fs
    ⟨exLogger.dated exClock, List.mem_cons_self _ _, by decide⟩

/-- C6. The retention sweep. For a retention of `n >= 0` days the paths
removed are exactly the paths of the regular files of the tree whose name ends
with the suffix of the logger and whose modification time is strictly before
now minus `n` days; a directory is never removed; for a negative retention
nothing is removed. -/
theorem delete_removes_exactly (lo : LoggerObj) (now : Int) (root : Entry) :
    (0 ≤ lo.config.MaxStorageDay → ∀ q, q ∈ lo.delete now (some root) ↔
      ∃ n t, FileAt (filepath_Dir lo.lpath) root q n t ∧ lo.lsuffix.data <:+ n.data ∧
        t < now - lo.config.MaxStorageDay * dayNanos) ∧
    (∀ (fakeNow : Int) (info : FileInfo), info.IsDir = true → lo.removes fakeNow info = false) ∧
    (lo.config.MaxStorageDay < 0 → ∀ r, lo.delete now r = []) := by
  refine ⟨fun h0 q => delete_mem_iff lo now root q h0, ?_, ?_⟩
  · intro fakeNow info hd
    simp [LoggerObj.removes, hd]
  · intro hneg r
    simp [LoggerObj.delete, hneg]

/-- C6 at the example tree, 100 days in, retention 60 days: `old.log` goes;
the fresh `app.log`, the old `old.txt` and the old directory `sub.log` stay. -/
theorem delete_removes_exactly_witness :
    exLogger.delete (100 * dayNanos) (some exTree) = ["logs/old.log"] ∧
    ("logs/old.log" ∈ exLogger.delete (100 * dayNanos) (some exTree) ↔
      ∃ n t, FileAt (filepath_Dir exLogger.lpath) exTree "logs/old.log" n t ∧
        exLogger.lsuffix.data <:+ n.data ∧
        t < 100 * dayNanos - exLogger.config.MaxStorageDay * dayNanos) :=
  ⟨by decide,
   (delete_removes_exactly exLogger (100 * dayNanos) exTree).1 (by decide) "logs/old.log"⟩

/-- C7, the code at the failing input. In short-path mode the path
`/app/main.go` is written whole, with its two slashes: the loop stops before
index 0, so the slash there is never taken as the second one. A path with the
second slash further in is cut as the claim says. -/
theorem shortPath_leading_slash :
    shortPath "/app/main.go" = "/app/main.go" ∧
    (shortPath "/app/main.go").data.count '/' = 2 ∧
    shortPath "/a/b/c/d.ext" = "c/d.ext" ∧
    (({ exLogger with config := { exConfig with CallInfo := true, ShortPath := true } }
        : LoggerObj).header exClock (some ("/app/main.go", 7)) ⟨exTemp, []⟩ INFO).bytes =
      "2021/05/12 16:52:07 \x1b[1;34;40m[INFO]\x1b[0m [ /app/main.go:7 ]:".data := by
  decide

/-- C8, the code at the failing input. The package function `SetShortPath(true)`
on the default logger leaves `ShortPath` off and turns `CallInfo` on, where the
method `SetShortPath(true)` turns `ShortPath` on and leaves `CallInfo` off. -/
theorem SetShortPath_sets_CallInfo :
    (SetShortPath none true).map (fun l => (l.config.ShortPath, l.config.CallInfo)) =
      some (false, true) ∧
    ((checkLoggerObj none).SetShortPath true).config.ShortPath = true ∧
    ((checkLoggerObj none).SetShortPath true).config.CallInfo = false ∧
    (∀ (g : Option LoggerObj) (b : Bool), SetShortPath g b = SetCallInfo g b) := by
  refine ⟨by decide, by decide, by decide, fun _ _ => rfl⟩

/-- C9. Size accounting. From a freshly constructed logger with file output
on, every sequence of `Write` (of records that carry a day stamp), `rotate` and
`Flush` steps runs to a state in which, if a file is open, it is the file at
the log path and the size field is its length on disk plus the number of bytes
still buffered. -/
theorem size_accounting (g g2 : Option LoggerObj) (c : Config) (lo : LoggerObj) (w : World)
    (ops : List Op) (hnew : NewLoggerObj g c = some (lo, g2))
    (hc : c.LogFileClose = false) (hok : ∀ op ∈ ops, op.ok) :
    lo.file = none ∧ lo.size = 0 ∧
    ∃ s, run (lo, w) ops = some s ∧
      ∀ h, s.1.file = some h → h = s.1.lpath ∧
        ∃ f, s.2.fs s.1.lpath = some f ∧
          s.1.size = (f.content.length : Int) + s.1.writer.length := by
  have hfresh : lo.file = none ∧ lo.size = 0 := by
    unfold NewLoggerObj at hnew
    simp only [hc] at hnew
    split at hnew
    · simp at hnew
    · split at hnew <;> simp at hnew <;> rw [← hnew.1] <;> exact ⟨rfl, rfl⟩
  refine ⟨hfresh.1, hfresh.2, ?_⟩
  obtain ⟨s, hrun, -, -, hi⟩ :=
    loggerInv_run ops _ (loggerInv_NewLoggerObj g g2 c lo w hc hnew) hok
  refine ⟨s, hrun, ?_⟩
  intro h hf
  unfold sizeInv at hi
  simp only [hf] at hi
  exact hi

/-- C9 on a run of the example configuration over an empty disk: a write, a
flush, a write that rotates by size, a write of the next day. -/
theorem size_accounting_witness :
    ∃ s, run ((LoggerObj.zero exConfig).newLogger, ⟨fun _ => none, [], 0, []⟩)
        [.write exClock exShort, .flush exClock, .write exClock exLong,
         .write exNext exTomorrow] = some s ∧
      ∀ h, s.1.file = some h → h = s.1.lpath ∧
        ∃ f, s.2.fs s.1.lpath = some f ∧
          s.1.size = (f.content.length : Int) + s.1.writer.length :=
  (size_accounting none none exConfig (LoggerObj.zero exConfig).newLogger
    ⟨fun _ => none, [], 0, []⟩ _ rfl (by decide) (by
      intro op hop
      simp only [List.mem_cons, List.mem_singleton, List.not_mem_nil, or_false] at hop
      rcases hop with h | h | h | h <;> subst h <;> decide)).2.2

/-- C10, counterexample. The file is open since 2021/05/12 and the clock reads
2021/05/12; a record stamped 2021/05/11 is rotated by day, and afterwards the
stamp is 2021/05/12, not the prefix of the record; writing a record with the
same prefix again starts a second sweep. -/
theorem created_stamp_counterexample :
    (exLogger.Write exWorld exClock exStale).map (fun r => r.2.1.created) =
      some "2021/05/12" ∧
    String.mk (exStale.take 10) = "2021/05/11" ∧
    (exLogger.Write exWorld exClock exStale).map (fun r => r.2.2.sweeps) = some 1 ∧
    ((exLogger.Write exWorld exClock exStale).bind
      (fun r => r.2.1.Write r.2.2 exClock exStale)).map (fun r => r.2.2.sweeps) = some 2 := by
  decide

/-- C10, amended. `Write` compares the prefix of the record with the stamp it
sees: the stored stamp when a file is open, the last-modified day of the file
it reopens when none is open, the date of the clock when it creates the file.
If that stamp is the prefix and the size limit is not reached, `Write` is the
plain append, starts no sweep, and the stamp afterwards is the stamp seen, so
the prefix (for a reopened file that is kept, its last-modified day). If the
stamp differs, `Write` rotates by day before the size check and the append,
starts one sweep, and the stamp afterwards is the date of the clock. If the
stamp is the prefix and the size limit is reached, `Write` rotates, starts no
sweep, and the stamp afterwards is the date of the clock. So the stamp is the
prefix whenever the clock reads the day of the record. Whenever the stamp
afterwards is the prefix, for a following record with the same prefix `Write`
is the size check and the append alone: no rotation by day, no sweep. -/
theorem Write_created_stamp (lo : LoggerObj) (w : World) (now : Clock) (buf : List Char)
    (hr : lo.ready) (hlen : 10 ≤ buf.length) :
    ∃ r, lo.Write w now buf = some r ∧
      (lo.opened w now buf).1.created = lo.stampSeen w now ∧
      (lo.opened w now buf).1.size = lo.sizeSeen w ∧
      (lo.stampSeen w now = String.mk (buf.take 10) →
        lo.sizeSeen w + (buf.length : Int) < lo.config.MaxSize →
        lo.Write w now buf = appended (lo.opened w now buf) now buf ∧
        r.2.1.created = lo.stampSeen w now ∧ r.2.1.created = String.mk (buf.take 10) ∧
        r.2.2.sweeps = w.sweeps) ∧
      (lo.stampSeen w now ≠ String.mk (buf.take 10) →
        lo.Write w now buf =
          appended (sizeCut ((lo.opened w now buf).1.rotate
            { (lo.opened w now buf).2 with sweeps := (lo.opened w now buf).2.sweeps + 1 } now)
            now buf) now buf ∧
        r.2.1.created = now.fmtDate '/' ∧ r.2.2.sweeps = w.sweeps + 1) ∧
      (lo.stampSeen w now = String.mk (buf.take 10) →
        lo.sizeSeen w + (buf.length : Int) ≥ lo.config.MaxSize →
        lo.Write w now buf =
          appended ((lo.opened w now buf).1.rotate (lo.opened w now buf).2 now) now buf ∧
        r.2.1.created = now.fmtDate '/' ∧ r.2.2.sweeps = w.sweeps) ∧
      (now.fmtDate '/' = String.mk (buf.take 10) → r.2.1.created = String.mk (buf.take 10)) ∧
      (r.2.1.created = String.mk (buf.take 10) →
        ∀ (now2 : Clock) (buf2 : List Char), 10 ≤ buf2.length →
          String.mk (buf2.take 10) = String.mk (buf.take 10) →
          ∃ r2, r.2.1.Write r.2.2 now2 buf2 = some r2 ∧
            r.2.1.Write r.2.2 now2 buf2 =
              appended (sizeCut (r.2.1, r.2.1.echo r.2.2 buf2) now2 buf2) now2 buf2 ∧
            r2.2.2.sweeps = r.2.2.sweeps) := by
  obtain ⟨r, hW, hready, hfile, -, -⟩ := Write_created lo w now buf hr hlen
  obtain ⟨r1, f1, -, -, hsw, hcfg⟩ := opened_seen lo w now buf hr
  -- the stamp and the size seen, read off `rotate` (log.go 540-545)
  have hcr : (lo.opened w now buf).1.created = lo.stampSeen w now := by
    rcases hr.2.2 with hf | hf
    · cases hx : w.fs lo.lpath <;>
        simp [LoggerObj.opened, LoggerObj.rotate, LoggerObj.stampSeen, hf, hr.1, echo_fs, hx]
    · simp [LoggerObj.opened, LoggerObj.stampSeen, hf]
  have hsz : (lo.opened w now buf).1.size = lo.sizeSeen w := by
    rcases hr.2.2 with hf | hf
    · cases hx : w.fs lo.lpath <;>
        simp [LoggerObj.opened, LoggerObj.rotate, LoggerObj.sizeSeen, hf, hr.1, echo_fs, hx]
    · simp [LoggerObj.opened, LoggerObj.sizeSeen, hf]
  have hst := Write_stages lo w now buf hr.1 hlen
  generalize lo.opened w now buf = s1 at *
  -- nothing is rotated
  have hA : lo.stampSeen w now = String.mk (buf.take 10) →
      lo.sizeSeen w + (buf.length : Int) < lo.config.MaxSize →
      lo.Write w now buf = appended s1 now buf ∧
      r.2.1.created = lo.stampSeen w now ∧ r.2.1.created = String.mk (buf.take 10) ∧
      r.2.2.sweeps = w.sweeps := by
    intro hP hS
    have hd : dayCut s1 now buf = s1 := by simp [dayCut, hcr, hP]
    have hz : sizeCut s1 now buf = s1 := by
      have : ¬ s1.1.size + (buf.length : Int) ≥ s1.1.config.MaxSize := by
        rw [hsz, hcfg]; omega
      simp only [sizeCut, this, if_false]
    rw [hd, hz] at hst
    obtain ⟨r3, hAp, -, -, hc3, hs3⟩ := appended_some s1 now buf r1 f1
    have h2 : appended s1 now buf = some r := by rw [← hst]; exact hW
    rw [hAp] at h2
    have h3 := Option.some.inj h2
    subst h3
    exact ⟨hst, by rw [hc3, hcr], by rw [hc3, hcr, hP], by rw [hs3, hsw]⟩
  -- rotated by day
  have hB : lo.stampSeen w now ≠ String.mk (buf.take 10) →
      lo.Write w now buf =
        appended (sizeCut (s1.1.rotate { s1.2 with sweeps := s1.2.sweeps + 1 } now) now buf)
          now buf ∧
      r.2.1.created = now.fmtDate '/' ∧ r.2.2.sweeps = w.sweeps + 1 := by
    intro hP
    have hd : dayCut s1 now buf = s1.1.rotate { s1.2 with sweeps := s1.2.sweeps + 1 } now := by
      simp [dayCut, hcr, hP]
    rw [hd] at hst
    obtain ⟨r2, f2⟩ := ready_rotate s1.1 { s1.2 with sweeps := s1.2.sweeps + 1 } now r1
    have c2 := rotate_created s1.1 { s1.2 with sweeps := s1.2.sweeps + 1 } now _ r1.1 f1 r1.2.1
    have w2 := rotate_sweeps s1.1 { s1.2 with sweeps := s1.2.sweeps + 1 } now
    generalize s1.1.rotate { s1.2 with sweeps := s1.2.sweeps + 1 } now = s2 at *
    obtain ⟨r3, f3, c3, w3⟩ := sizeCut_facts s2 now buf r2 f2
    obtain ⟨r4, hAp, -, -, hc4, hs4⟩ := appended_some (sizeCut s2 now buf) now buf r3 f3
    have h2 : appended (sizeCut s2 now buf) now buf = some r := by rw [← hst]; exact hW
    rw [hAp] at h2
    have h3 := Option.some.inj h2
    subst h3
    refine ⟨hst, ?_, ?_⟩
    · rw [hc4]
      rcases c3 with c3 | c3
      · rw [c3, c2]
      · exact c3
    · rw [hs4, w3, w2]
      simp only [hsw]
  -- rotated by size
  have hC : lo.stampSeen w now = String.mk (buf.take 10) →
      lo.sizeSeen w + (buf.length : Int) ≥ lo.config.MaxSize →
      lo.Write w now buf = appended (s1.1.rotate s1.2 now) now buf ∧
      r.2.1.created = now.fmtDate '/' ∧ r.2.2.sweeps = w.sweeps := by
    intro hP hS
    have hd : dayCut s1 now buf = s1 := by simp [dayCut, hcr, hP]
    have hz : sizeCut s1 now buf = s1.1.rotate s1.2 now := by
      have : s1.1.size + (buf.length : Int) ≥ s1.1.config.MaxSize := by
        rw [hsz, hcfg]; exact hS
      simp only [sizeCut, this, if_true]
    rw [hd, hz] at hst
    obtain ⟨r2, f2⟩ := ready_rotate s1.1 s1.2 now r1
    have c2 := rotate_created s1.1 s1.2 now _ r1.1 f1 r1.2.1
    have w2 := rotate_sweeps s1.1 s1.2 now
    obtain ⟨r4, hAp, -, -, hc4, hs4⟩ := appended_some (s1.1.rotate s1.2 now) now buf r2 f2
    have h2 : appended (s1.1.rotate s1.2 now) now buf = some r := by rw [← hst]; exact hW
    rw [hAp] at h2
    have h3 := Option.some.inj h2
    subst h3
    exact ⟨hst, by rw [hc4, c2], by rw [hs4, w2, hsw]⟩
  refine ⟨r, hW, hcr, hsz, hA, hB, hC, ?_, ?_⟩
  · intro h
    by_cases hP : lo.stampSeen w now = String.mk (buf.take 10)
    · rcases lt_or_ge (lo.sizeSeen w + (buf.length : Int)) lo.config.MaxSize with hS | hS
      · exact (hA hP hS).2.2.1
      · rw [(hC hP hS).2.1, h]
    · rw [(hB hP).2.1, h]
  · intro h now2 buf2 hlen2 hp
    obtain ⟨r2, hW2, -, -, -, hsw2⟩ := Write_created r.2.1 r.2.2 now2 buf2 hready hlen2
    have hst2 := Write_stages r.2.1 r.2.2 now2 buf2 hready.1 hlen2
    rw [opened_of_open r.2.1 r.2.2 now2 buf2 hfile] at hst2
    have hd2 : dayCut (r.2.1, r.2.1.echo r.2.2 buf2) now2 buf2 =
        (r.2.1, r.2.1.echo r.2.2 buf2) := by
      simp [dayCut, h, hp]
    rw [hd2] at hst2
    exact ⟨r2, hW2, hst2, hsw2 hfile (by rw [h, hp])⟩

/-- C10, amended, at three inputs. A file last modified on 2021/05/12 is
reopened when the clock reads 2021/05/13, for a record of 2021/05/12: it is
kept, and the stamp is its last-modified day. A record of 2021/05/13 written
when the clock reads 2021/05/13 is rotated by day and leaves the stamp
2021/05/13, its prefix. The stale record of 2021/05/11 written when the clock
reads 2021/05/12 is rotated by day and leaves the stamp 2021/05/12. -/
theorem Write_created_stamp_witness :
    (∃ r, exFresh.Write exWorld exNext exShort = some r ∧
      r.2.1.created = exFile.modTime.fmtDate '/' ∧ r.2.1.created = "2021/05/12" ∧
      r.2.2.sweeps = 0) ∧
    (exFresh.Write exWorld exNext exShort).map (fun r => (r.2.1.created, r.2.2.sweeps)) =
      some ("2021/05/12", 0) ∧
    exNext.fmtDate '/' = "2021/05/13" ∧
    (∃ r, exLogger.Write exWorld exNext exTomorrow = some r ∧
      r.2.1.created = String.mk (exTomorrow.take 10) ∧ r.2.2.sweeps = 1) ∧
    (∃ r, exLogger.Write exWorld exClock exStale = some r ∧
      r.2.1.created = "2021/05/12" ∧ r.2.2.sweeps = 1) := by
  refine ⟨?_, by decide, by decide, ?_, ?_⟩
  · obtain ⟨r, h1, -, -, h4, -⟩ :=
      Write_created_stamp exFresh exWorld exNext exShort (by decide) (by decide)
    obtain ⟨-, k2, k3, k4⟩ := h4 (by decide) (by decide)
    exact ⟨r, h1, by rw [k2]; decide, k3, k4⟩
  · obtain ⟨r, h1, -, -, -, h5, -, h7, -⟩ :=
      Write_created_stamp exLogger exWorld exNext exTomorrow (by decide) (by decide)
    exact ⟨r, h1, h7 (by decide), (h5 (by decide)).2.2⟩
  · obtain ⟨r, h1, -, -, -, h5, -⟩ :=
      Write_created_stamp exLogger exWorld exClock exStale (by decide) (by decide)
    obtain ⟨-, k2, k3⟩ := h5 (by decide)
    exact ⟨r, h1, by rw [k2]; decide, k3⟩

end Logx
